import Mathlib

set_option allowUnsafeReducibility true

attribute [local semireducible] Rat.add Rat.mul Rat.div Rat.sub Rat.neg Rat.inv

/-!
# Verification of the galacean-engine-bvh spatial acceleration library

Shallow embedding of the library's core (AABB slab kernel, dynamic object
BVH, mesh BVH, batch builder) and proofs/refutations of the frozen claims.

Numbers: the source is JavaScript, whose numbers are IEEE-754 doubles.  We
model them by `F`, rationals extended with `+∞`, `-∞` and `NaN`, with the
JavaScript semantics of the arithmetic operations, `Math.min`/`Math.max`
(NaN-propagating) and the comparison operators (false on NaN).  Rounding is
not modelled: all concrete inputs used here are exactly representable and
the claims under study do not hinge on rounding.  Data that the source
keeps finite (tree bounds, ray origins/directions, triangle vertices) is
embedded with plain `ℚ` and coerced into `F` at the kernels' boundaries,
mirroring the source's `AABB.fromBoundingBox` conversions.
-/

namespace BVH

/-- JavaScript number: a rational, `+Infinity`, `-Infinity`, or `NaN`. -/
inductive F where
  | fin : ℚ → F
  | pInf : F
  | nInf : F
  | nan : F
deriving DecidableEq, Repr

namespace F

/-- JS unary minus. -/
def neg : F → F
  | fin q => fin (-q)
  | pInf => nInf
  | nInf => pInf
  | nan => nan

/-- JS `+`. -/
def add : F → F → F
  | nan, _ => nan
  | _, nan => nan
  | pInf, nInf => nan
  | nInf, pInf => nan
  | pInf, _ => pInf
  | _, pInf => pInf
  | nInf, _ => nInf
  | _, nInf => nInf
  | fin a, fin b => fin (a + b)

/-- JS `-`. -/
def sub (a b : F) : F := add a (neg b)

/-- JS `*`. -/
def mul : F → F → F
  | nan, _ => nan
  | _, nan => nan
  | pInf, pInf => pInf
  | pInf, nInf => nInf
  | nInf, pInf => nInf
  | nInf, nInf => pInf
  | pInf, fin q => if 0 < q then pInf else if q < 0 then nInf else nan
  | fin q, pInf => if 0 < q then pInf else if q < 0 then nInf else nan
  | nInf, fin q => if 0 < q then nInf else if q < 0 then pInf else nan
  | fin q, nInf => if 0 < q then nInf else if q < 0 then pInf else nan
  | fin a, fin b => fin (a * b)

/-- JS `/` (the model has no `-0`, so `x / 0` takes the sign of `x`). -/
def div : F → F → F
  | nan, _ => nan
  | _, nan => nan
  | pInf, pInf => nan
  | pInf, nInf => nan
  | nInf, pInf => nan
  | nInf, nInf => nan
  | pInf, fin q => if q < 0 then nInf else pInf
  | nInf, fin q => if q < 0 then pInf else nInf
  | fin _, pInf => fin 0
  | fin _, nInf => fin 0
  | fin a, fin b =>
    if b = 0 then (if 0 < a then pInf else if a < 0 then nInf else nan)
    else fin (a / b)

/-- JS `Math.min` (NaN-propagating). -/
def minF : F → F → F
  | nan, _ => nan
  | _, nan => nan
  | nInf, _ => nInf
  | _, nInf => nInf
  | pInf, b => b
  | a, pInf => a
  | fin a, fin b => fin (min a b)

/-- JS `Math.max` (NaN-propagating). -/
def maxF : F → F → F
  | nan, _ => nan
  | _, nan => nan
  | pInf, _ => pInf
  | _, pInf => pInf
  | nInf, b => b
  | a, nInf => a
  | fin a, fin b => fin (max a b)

/-- JS `<` (false whenever either side is NaN). -/
def ltF : F → F → Bool
  | nan, _ => false
  | _, nan => false
  | fin a, fin b => decide (a < b)
  | fin _, pInf => true
  | fin _, nInf => false
  | nInf, fin _ => true
  | nInf, pInf => true
  | nInf, nInf => false
  | pInf, _ => false

/-- JS `<=` (false whenever either side is NaN). -/
def leF : F → F → Bool
  | nan, _ => false
  | _, nan => false
  | fin a, fin b => decide (a ≤ b)
  | fin _, pInf => true
  | fin _, nInf => false
  | nInf, _ => true
  | pInf, pInf => true
  | pInf, _ => false

/-- JS `>`. -/
def gtF (a b : F) : Bool := ltF b a

/-- JS `>=`. -/
def geF (a b : F) : Bool := leF b a

/-- JS `Math.abs`. -/
def absF : F → F
  | fin q => fin |q|
  | pInf => pInf
  | nInf => pInf
  | nan => nan

/-- JS `Math.sign`. -/
def signF : F → F
  | fin q => fin (if 0 < q then 1 else if q < 0 then -1 else 0)
  | pInf => fin 1
  | nInf => fin (-1)
  | nan => nan

/-- Is this value NaN? -/
def isNaN : F → Bool
  | nan => true
  | _ => false

/-- Order-preserving key for the non-NaN, non-`-∞` values that the raycast
kernels produce: a finite value maps to itself and `+∞` to `⊤`.  (`-∞` and
`NaN`, which the kernels never emit, are mapped to `⊤` as well.) -/
def toKey : F → WithTop ℚ
  | fin q => (q : WithTop ℚ)
  | _ => ⊤

end F

/-- A 3-component vector with finite coordinates (`Vector3` holding
ordinary finite numbers, as the tree and ray data always do). -/
structure V3 where
  x : ℚ
  y : ℚ
  z : ℚ
deriving DecidableEq, Repr

/-- A 3-component vector of JS numbers (used where `±∞`/NaN can appear). -/
structure V3F where
  x : F
  y : F
  z : F
deriving DecidableEq, Repr

/-- Coerce a finite vector into the JS-number world. -/
def V3.toF (v : V3) : V3F := ⟨.fin v.x, .fin v.y, .fin v.z⟩

/-- `BoundingBox`: min/max corners with finite coordinates. -/
structure Box where
  bmin : V3
  bmax : V3
deriving DecidableEq, Repr

/-- `AABB`: min/max corners as JS numbers (the default constructor uses
`min = (+∞,+∞,+∞)`, `max = (−∞,−∞,−∞)`). -/
structure BoxF where
  bmin : V3F
  bmax : V3F
deriving DecidableEq, Repr

/-- `AABB.fromBoundingBox`. -/
def Box.toF (b : Box) : BoxF := ⟨b.bmin.toF, b.bmax.toF⟩

/-- `new AABB()`: the default-constructed empty AABB. -/
def emptyAABB : BoxF := ⟨⟨.pInf, .pInf, .pInf⟩, ⟨.nInf, .nInf, .nInf⟩⟩

/-- `Ray`: origin and direction (finite coordinates; the source constructor
normalizes the direction, which the slab and triangle kernels do not
require, so an arbitrary finite direction is allowed here). -/
structure Ray where
  origin : V3
  direction : V3
deriving DecidableEq, Repr

/-- `AABB.intersectRayDistance`: the slab method, transcribed from the
source including its unguarded reciprocals (`1 / direction.k`, giving `±∞`
for a zero component) and the final `tMax >= Math.max(tMin, 0)` test. -/
def intersectRayDistance (box : BoxF) (ray : Ray) : Option F :=
  let invDx := F.div (.fin 1) (.fin ray.direction.x)
  let invDy := F.div (.fin 1) (.fin ray.direction.y)
  let invDz := F.div (.fin 1) (.fin ray.direction.z)
  let t1 := F.mul (F.sub box.bmin.x (.fin ray.origin.x)) invDx
  let t2 := F.mul (F.sub box.bmax.x (.fin ray.origin.x)) invDx
  let tMin1 := F.maxF F.nInf (F.minF t1 t2)
  let tMax1 := F.minF F.pInf (F.maxF t1 t2)
  let t3 := F.mul (F.sub box.bmin.y (.fin ray.origin.y)) invDy
  let t4 := F.mul (F.sub box.bmax.y (.fin ray.origin.y)) invDy
  let tMin2 := F.maxF tMin1 (F.minF t3 t4)
  let tMax2 := F.minF tMax1 (F.maxF t3 t4)
  let t5 := F.mul (F.sub box.bmin.z (.fin ray.origin.z)) invDz
  let t6 := F.mul (F.sub box.bmax.z (.fin ray.origin.z)) invDz
  let tMin := F.maxF tMin2 (F.minF t5 t6)
  let tMax := F.minF tMax2 (F.maxF t5 t6)
  if F.geF tMax (F.maxF tMin (.fin 0)) then
    (if F.geF tMin (.fin 0) then some tMin else some tMax)
  else
    none

/-- `AABB.intersectAABB`: separating-axis overlap test. -/
def intersectAABBF (a b : BoxF) : Bool :=
  !(F.ltF a.bmax.x b.bmin.x || F.gtF a.bmin.x b.bmax.x ||
    F.ltF a.bmax.y b.bmin.y || F.gtF a.bmin.y b.bmax.y ||
    F.ltF a.bmax.z b.bmin.z || F.gtF a.bmin.z b.bmax.z)

/-- `AABB.fromCenterSize` (finite data). -/
def fromCenterSize (center size : V3) : Box :=
  ⟨⟨center.x - size.x / 2, center.y - size.y / 2, center.z - size.z / 2⟩,
   ⟨center.x + size.x / 2, center.y + size.y / 2, center.z + size.z / 2⟩⟩

/-- `Ray.getPoint` (`origin + distance·direction`), over JS numbers since
raycast distances can be `+∞`. -/
def getPointF (ray : Ray) (distance : F) : V3F :=
  ⟨F.add (.fin ray.origin.x) (F.mul (.fin ray.direction.x) distance),
   F.add (.fin ray.origin.y) (F.mul (.fin ray.direction.y) distance),
   F.add (.fin ray.origin.z) (F.mul (.fin ray.direction.z) distance)⟩

/-! ### Batch builder (`BVHBuilder`), SAH split selection -/

/-- A JS `userData` value: `undefined`, `null`, or an opaque payload
(represented by a natural number tag). -/
inductive UD where
  | undef : UD
  | null : UD
  | val : Nat → UD
deriving DecidableEq, Repr

/-- `BVHInsertObject`: bounds plus user data. -/
structure BObj where
  bounds : Box
  userData : UD
deriving DecidableEq, Repr

/-- `AABB.union` (componentwise min/max of corners; the tree stores finite
bounds, so this is the finite version). -/
def Box.union (a b : Box) : Box :=
  ⟨⟨min a.bmin.x b.bmin.x, min a.bmin.y b.bmin.y, min a.bmin.z b.bmin.z⟩,
   ⟨max a.bmax.x b.bmax.x, max a.bmax.y b.bmax.y, max a.bmax.z b.bmax.z⟩⟩

/-- `AABB.surfaceArea`: `2·(sx·sy + sy·sz + sz·sx)`. -/
def Box.surfaceArea (b : Box) : ℚ :=
  let sx := b.bmax.x - b.bmin.x
  let sy := b.bmax.y - b.bmin.y
  let sz := b.bmax.z - b.bmin.z
  2 * (sx * sy + sy * sz + sz * sx)

/-- `AABB.getCenter` / `BVHBuilder.getCenter`: midpoint of the corners. -/
def boxCenter (b : Box) : V3 :=
  ⟨(b.bmin.x + b.bmax.x) / 2, (b.bmin.y + b.bmax.y) / 2,
   (b.bmin.z + b.bmax.z) / 2⟩

/-- The source's `axis === 0 ? v.x : axis === 1 ? v.y : v.z` selector. -/
def axisGet (v : V3) (axis : Nat) : ℚ :=
  if axis = 0 then v.x else if axis = 1 then v.y else v.z

/-- `BVHBuilder.selectSplitAxis`: longest axis of the union AABB (X wins
strict ties per the source's strict comparisons). -/
def selectSplitAxis (u : Option Box) : Nat :=
  match u with
  | none => 0
  | some a =>
    let sx := a.bmax.x - a.bmin.x
    let sy := a.bmax.y - a.bmin.y
    let sz := a.bmax.z - a.bmin.z
    if sx > sy ∧ sx > sz then 0 else if sy > sz then 1 else 2

/-- Apply `f` at index `i` of a list (identity when out of range); models
in-place mutation of a JS array element. -/
def modifyIdx (l : List α) (i : Nat) (f : α → α) : List α :=
  match l.get? i with
  | some a => l.set i (f a)
  | none => l

/-- `bounds === null ? b : bounds.union(b)`. -/
def unionOpt (acc : Option Box) (b : Box) : Option Box :=
  match acc with
  | none => some b
  | some a => some (a.union b)

/-- Fill `nb` centroid buckets: each object goes into
`clamp(⌊(centroid − axisMin)/axisRange · nb⌋, 0, nb−1)`, accumulating a
count and a union of bounds per bucket (the source uses `nb = 12` in
`BVHBuilder.findBestSplitPositionSAH` and `nb = 32` in
`MeshBVH.splitSAH`). -/
def fillBuckets (objs : List BObj) (axis : Nat) (axisMin axisRange : ℚ)
    (nb : Nat) : List (Nat × Option Box) :=
  objs.foldl
    (fun bs obj =>
      let centroid := axisGet (boxCenter obj.bounds) axis
      let idx : ℤ := ⌊(centroid - axisMin) / axisRange * nb⌋
      let idx := max (min idx (nb - 1 : ℤ)) 0
      modifyIdx bs idx.toNat (fun cb => (cb.1 + 1, unionOpt cb.2 obj.bounds)))
    (List.replicate nb (0, none))

/-- Accumulate (bounds union, count) over the buckets with index in
`[lo, hi)`, as the source's inner `for j` loops do. -/
def sideAcc (bs : List (Nat × Option Box)) (lo hi : Nat) :
    Option Box × Nat :=
  ((bs.drop lo).take (hi - lo)).foldl
    (fun acc cb =>
      (match cb.2 with
       | none => acc.1
       | some b => unionOpt acc.1 b,
       acc.2 + cb.1))
    (none, 0)

/-- One iteration of the source's candidate-split loop in
`BVHBuilder.findBestSplitPositionSAH`: evaluate split index `i`, keeping
the best `(cost, index)` (cost `none` models the initial `Infinity`). -/
def sahStep (bs : List (Nat × Option Box)) (parentSA : ℚ)
    (best : Option ℚ × Nat) (i : Nat) : Option ℚ × Nat :=
  let left := sideAcc bs 0 i
  let right := sideAcc bs i 12
  if left.2 = 0 ∨ right.2 = 0 then best
  else
    match left.1, right.1 with
    | some lb, some rb =>
      -- cost = 0.125 + (leftSA·leftCount + rightSA·rightCount) / parentSA
      let cost := 1 / 8 +
        (lb.surfaceArea * left.2 + rb.surfaceArea * right.2) / parentSA
      (match best.1 with
       | none => (some cost, i)
       | some bc => if cost < bc then (some cost, i) else best)
    | _, _ => best

/-- The source's loop `for (let i = 1; i < numBuckets; i++)`, starting from
`bestCost = Infinity`, `bestSplitIdx = Math.floor(numBuckets / 2) = 6`. -/
def sahLoop (bs : List (Nat × Option Box)) (parentSA : ℚ) : Nat :=
  ((List.range' 1 11).foldl (sahStep bs parentSA) (none, 6)).2

/-- `BVHBuilder.findBestSplitPositionSAH`: 12 centroid buckets on the one
given axis; returns `axisMin + (bestSplitIdx / 12)·axisRange` (with the
source's degenerate fallbacks for non-positive surface area or range). -/
def findBestSplitPositionSAH (objs : List BObj) (axis : Nat)
    (parentAABB : Box) : ℚ :=
  let parentSA := parentAABB.surfaceArea
  if parentSA ≤ 0 then axisGet (boxCenter parentAABB) axis
  else
    let axisMin := axisGet parentAABB.bmin axis
    let axisMax := axisGet parentAABB.bmax axis
    let axisRange := axisMax - axisMin
    if axisRange ≤ 0 then axisMin
    else
      let bs := fillBuckets objs axis axisMin axisRange 12
      let bestIdx := sahLoop bs parentSA
      axisMin + (bestIdx / 12 : ℚ) * axisRange

/-- The union-of-all-bounds fold at the head of `BVHBuilder.buildSAH`. -/
def unionAll (objs : List BObj) : Option Box :=
  objs.foldl
    (fun acc o =>
      match acc with
      | none => some o.bounds
      | some u => some (u.union o.bounds))
    none

/-- The split-selection portion of `BVHBuilder.buildSAH` (lines computing
`unionAABB`, `splitAxis` and `splitPos`): the split position is evaluated
on the single selected axis only.  (For an empty input the source would
dereference `null`; we return axis 0, position 0, a case no caller
reaches.) -/
def buildSAHChoice (objs : List BObj) : Nat × ℚ :=
  match unionAll objs with
  | none => (0, 0)
  | some u =>
    let axis := selectSplitAxis (some u)
    (axis, findBestSplitPositionSAH objs axis u)

/-- Modelled from the spec: the claim's description of the batch builder's
SAH split ("evaluates candidate splits on each of the three axes by
spanning the axis range into 32 equal centroid bins, and scores each
candidate split with cost `C = C_t + (SA_L/SA_parent)·n_L·C_i +
(SA_R/SA_parent)·n_R·C_i` using `C_t = 1.0` and `C_i = 1.25`"), per-axis:
the best (cost, position) over the 31 candidate boundaries, with
first-strict-improvement tie-breaking. -/
def specAxisBest32 (objs : List BObj) (parent : Box) (axis : Nat) :
    Option (ℚ × ℚ) :=
  let parentSA := parent.surfaceArea
  let axisMin := axisGet parent.bmin axis
  let axisMax := axisGet parent.bmax axis
  let range := axisMax - axisMin
  if range ≤ 0 then none
  else
    let bs := fillBuckets objs axis axisMin range 32
    (List.range' 1 31).foldl
      (fun best i =>
        let left := sideAcc bs 0 i
        let right := sideAcc bs i 32
        if left.2 = 0 ∨ right.2 = 0 then best
        else
          match left.1, right.1 with
          | some lb, some rb =>
            let cost := 1 + lb.surfaceArea / parentSA * left.2 * (5 / 4) +
              rb.surfaceArea / parentSA * right.2 * (5 / 4)
            let pos := axisMin + (i / 32 : ℚ) * range
            (match best with
             | none => some (cost, pos)
             | some b => if cost < b.1 then some (cost, pos) else best)
          | _, _ => best)
      none

/-- Modelled from the spec: the three-axis, 32-bin SAH split the claim
attributes to the batch builder — the globally best (axis, position) over
the three axes (axis 0 and the parent's center as a fallback when no axis
admits a valid split). -/
def specSAH32 (objs : List BObj) : Nat × ℚ :=
  match unionAll objs with
  | none => (0, 0)
  | some parent =>
    let best := (List.range 3).foldl
      (fun acc axis =>
        match specAxisBest32 objs parent axis with
        | none => acc
        | some cp =>
          (match acc with
           | none => some (cp.1, axis, cp.2)
           | some b => if cp.1 < b.1 then some (cp.1, axis, cp.2) else acc))
      none
    match best with
    | none => (0, axisGet (boxCenter parent) 0)
    | some b => (b.2.1, b.2.2)

/-! ### Dynamic object BVH (`BVHTree`)

The source mutates a graph of `BVHNode`s linked by `left`/`right`/`parent`
references.  We embed it as an arena: `nodes` is the heap, node references
are arena indices, and every mutation returns an updated state.  Reads of
a reference the source could never see dangle (`getN … = none`) leave the
state unchanged. -/

/-- `BVHNode` (object-tree flavor). -/
structure Node where
  bounds : Box
  isLeaf : Bool
  depth : Nat
  left : Option Nat
  right : Option Nat
  parent : Option Nat
  userData : UD
  objectId : Int
deriving DecidableEq, Repr

/-- `BVHTree` state: arena plus the tree's scalar fields. -/
structure TreeState where
  nodes : List Node
  root : Option Nat
  maxLeafSize : Nat
  maxDepth : Nat
  enableSAH : Bool
  count : Int
  objectMap : List (Int × Nat)
  nextId : Int
deriving DecidableEq, Repr

/-- `new BVHTree(maxLeafSize, maxDepth, enableSAH)` with the constructor's
`Math.max(1, ·)` clamps. -/
def mkTree (maxLeafSize maxDepth : Nat) (enableSAH : Bool) : TreeState :=
  ⟨[], none, max 1 maxLeafSize, max 1 maxDepth, enableSAH, 0, [], 0⟩

/-- Dereference a node index. -/
def getN (s : TreeState) (i : Nat) : Option Node := s.nodes.get? i

/-- Overwrite the node at an index. -/
def setN (s : TreeState) (i : Nat) (n : Node) : TreeState :=
  { s with nodes := s.nodes.set i n }

/-- Mutate the node at an index in place. -/
def modifyN (s : TreeState) (i : Nat) (f : Node → Node) : TreeState :=
  match getN s i with
  | some n => setN s i (f n)
  | none => s

/-- Allocate a fresh node, returning its index. -/
def allocN (s : TreeState) (n : Node) : TreeState × Nat :=
  ({ s with nodes := s.nodes ++ [n] }, s.nodes.length)

/-- JS `Map.get`. -/
def mapGet (m : List (Int × Nat)) (k : Int) : Option Nat :=
  (m.find? (fun e => decide (e.1 = k))).map (·.2)

/-- JS `Map.set` (replaces an existing binding, else appends). -/
def mapSet (m : List (Int × Nat)) (k : Int) (v : Nat) : List (Int × Nat) :=
  match m with
  | [] => [(k, v)]
  | e :: t => if e.1 = k then (k, v) :: t else e :: mapSet t k v

/-- JS `Map.delete`. -/
def mapDel (m : List (Int × Nat)) (k : Int) : List (Int × Nat) :=
  m.filter (fun e => decide (e.1 ≠ k))

/-- `BVHNode.createLeaf`. -/
def createLeafNode (bounds : Box) (ud : UD) (objectId : Int) (depth : Nat) :
    Node :=
  ⟨bounds, true, depth, none, none, none, ud, objectId⟩

/-- One step of `BVHNode.updateBounds`: recompute an internal node's
bounds from its children (componentwise min/max; copy for a single
child). -/
def updateBoundsStep (s : TreeState) (i : Nat) : TreeState :=
  match getN s i with
  | none => s
  | some n =>
    if n.isLeaf then s
    else
      match n.left, n.right with
      | some l, some r =>
        (match getN s l, getN s r with
         | some ln, some rn =>
           setN s i { n with bounds := ln.bounds.union rn.bounds }
         | _, _ => s)
      | some l, none =>
        (match getN s l with
         | some ln => setN s i { n with bounds := ln.bounds }
         | none => s)
      | none, some r =>
        (match getN s r with
         | some rn => setN s i { n with bounds := rn.bounds }
         | none => s)
      | none, none => s

/-- The iterative walk-upward of `BVHNode.updateBounds` (safety cap 64,
cycle guard via a visited set). -/
def updateBoundsGo (s : TreeState) (cur : Option Nat) (visited : List Nat)
    (fuel : Nat) : TreeState :=
  match fuel, cur with
  | 0, _ => s
  | _, none => s
  | f + 1, some i =>
    if i ∈ visited then s
    else
      let s' := updateBoundsStep s i
      updateBoundsGo s' ((getN s' i).bind (·.parent)) (i :: visited) f

/-- `BVHNode.updateBounds` called on node `i`. -/
def updateBounds (s : TreeState) (i : Nat) : TreeState :=
  updateBoundsGo s (some i) [] 64

/-- `BVHTree.calculateBoundsGrowth`: volume of the union minus the old
volume, in direct scalar arithmetic. -/
def calculateBoundsGrowth (oldB newB : Box) : ℚ :=
  let unionVolume :=
    max 0 (max oldB.bmax.x newB.bmax.x - min oldB.bmin.x newB.bmin.x) *
    max 0 (max oldB.bmax.y newB.bmax.y - min oldB.bmin.y newB.bmin.y) *
    max 0 (max oldB.bmax.z newB.bmax.z - min oldB.bmin.z newB.bmin.z)
  let oldVolume :=
    max 0 (oldB.bmax.x - oldB.bmin.x) *
    max 0 (oldB.bmax.y - oldB.bmin.y) *
    max 0 (oldB.bmax.z - oldB.bmin.z)
  unionVolume - oldVolume

/-- Growth of the node at index `i` when its bounds would absorb `b`. -/
def growthOf (s : TreeState) (i : Nat) (b : Box) : ℚ :=
  match getN s i with
  | some n => calculateBoundsGrowth n.bounds b
  | none => 0

/-- The descent loop of `BVHTree.findBestLeaf` (iteration cap
`maxDepth * 2` as fuel; a missing right child acts as infinite growth, so
descent goes left). -/
def findBestLeafGo (s : TreeState) (cur : Nat) (bounds : Box)
    (visited : List Nat) (fuel : Nat) : Nat :=
  match getN s cur with
  | none => cur
  | some n =>
    if n.isLeaf then cur
    else
      match fuel with
      | 0 => cur
      | f + 1 =>
        if cur ∈ visited then cur
        else
          match n.left with
          | none => cur
          | some l =>
            match n.right with
            | none => findBestLeafGo s l bounds (cur :: visited) f
            | some r =>
              if growthOf s l bounds < growthOf s r bounds then
                findBestLeafGo s l bounds (cur :: visited) f
              else
                findBestLeafGo s r bounds (cur :: visited) f

/-- `BVHTree.findBestLeaf`. -/
def findBestLeaf (s : TreeState) (start : Nat) (bounds : Box) : Nat :=
  findBestLeafGo s start bounds [] (s.maxDepth * 2)

/-- The payload-leaf-counting loop of `BVHTree.shouldSplit` (explicit
stack, visited set, iteration cap as fuel). -/
def shouldSplitGo (s : TreeState) (stack visited : List Nat)
    (leafCount : Nat) (fuel : Nat) : Nat :=
  match stack, fuel with
  | [], _ => leafCount
  | _, 0 => leafCount
  | i :: rest, f + 1 =>
    if i ∈ visited then shouldSplitGo s rest visited leafCount f
    else
      match getN s i with
      | none => shouldSplitGo s rest (i :: visited) leafCount f
      | some n =>
        if n.isLeaf then
          shouldSplitGo s rest (i :: visited)
            (if 0 ≤ n.objectId then leafCount + 1 else leafCount) f
        else
          let st1 := match n.left with
            | some l => l :: rest
            | none => rest
          let st2 := match n.right with
            | some r => r :: st1
            | none => st1
          shouldSplitGo s st2 (i :: visited) leafCount f

/-- `BVHTree.shouldSplit`. -/
def shouldSplit (s : TreeState) (i : Nat) : Bool :=
  match getN s i with
  | none => false
  | some n =>
    if n.depth ≥ s.maxDepth - 1 then false
    else
      decide (s.maxLeafSize ≤
        shouldSplitGo s [i] [] 0 (2 * s.count + 1000).toNat)

/-- `BVHTree.getLongestAxis`: longest axis of the fold of the given boxes
(the `±∞` initial accumulator means an empty input yields axis 2, as the
source's comparisons against `−∞` sizes all fail). -/
def getLongestAxis (boxes : List Box) : Nat :=
  match boxes.foldl (fun acc b => unionOpt acc b) none with
  | none => 2
  | some u =>
    if u.bmax.x - u.bmin.x > u.bmax.y - u.bmin.y ∧
        u.bmax.x - u.bmin.x > u.bmax.z - u.bmin.z then 0
    else if u.bmax.y - u.bmin.y > u.bmax.z - u.bmin.z then 1
    else 2

/-- `BVHTree.splitLeaf`: the fresh leaf for the new object is allocated
first (as in the source); an empty leaf (`objectId < 0`) is overwritten in
place, otherwise the leaf is promoted to an internal node whose two
children (old payload, new payload) are ordered by their midpoints along
the longest axis of the two boxes, and bounds are refitted upward. -/
def splitLeaf (s : TreeState) (leafIdx : Nat) (newBounds : Box)
    (newUD : UD) (newId : Int) : TreeState :=
  match getN s leafIdx with
  | none => s
  | some leaf =>
    let alloc1 := allocN s (createLeafNode newBounds newUD newId (leaf.depth + 1))
    let s1 := alloc1.1
    let newLeafIdx := alloc1.2
    if leaf.objectId < 0 then
      let s2 := setN s1 leafIdx
        { leaf with bounds := newBounds, userData := newUD, objectId := newId }
      { s2 with objectMap := mapSet s2.objectMap newId leafIdx }
    else
      let existingBounds := leaf.bounds
      let s2 := setN s1 leafIdx
        { leaf with isLeaf := false, userData := UD.null, objectId := -1 }
      let splitAxis := getLongestAxis [existingBounds, newBounds]
      let existingMid :=
        (axisGet existingBounds.bmin splitAxis +
          axisGet existingBounds.bmax splitAxis) / 2
      let newMid :=
        (axisGet newBounds.bmin splitAxis + axisGet newBounds.bmax splitAxis) / 2
      let alloc2 := allocN s2
        (createLeafNode existingBounds leaf.userData leaf.objectId (leaf.depth + 1))
      let s3 := alloc2.1
      let exIdx := alloc2.2
      let s4 := { s3 with objectMap := mapSet s3.objectMap leaf.objectId exIdx }
      let s5 :=
        if existingMid < newMid then
          modifyN s4 leafIdx
            (fun n => { n with left := some exIdx, right := some newLeafIdx })
        else
          modifyN s4 leafIdx
            (fun n => { n with left := some newLeafIdx, right := some exIdx })
      let s6 := modifyN s5 exIdx (fun n => { n with parent := some leafIdx })
      let s7 := modifyN s6 newLeafIdx (fun n => { n with parent := some leafIdx })
      let s8 := { s7 with objectMap := mapSet s7.objectMap newId newLeafIdx }
      updateBounds s8 leafIdx

/-- The body of `BVHTree.insertIterative`: the descent loop (fuel =
`maxDepth * 2`), the forced split at `depth ≥ maxDepth`, and the
post-loop force insert reached when the iteration cap runs out. -/
def insertIterativeGo (s : TreeState) (node : Nat) (bounds : Box) (ud : UD)
    (objectId : Int) (depth : Nat) (fuel : Nat) : TreeState :=
  match fuel with
  | 0 =>
    -- 达到最大迭代次数: force insert at the current node
    (match getN s node with
     | none => s
     | some n =>
       if n.isLeaf then splitLeaf s node bounds ud objectId
       else
         match n.left with
         | some l => splitLeaf s l bounds ud objectId
         | none =>
           let alloc := allocN s (createLeafNode bounds ud objectId depth)
           let s1 := alloc.1
           let idx := alloc.2
           let s2 := modifyN s1 node (fun m => { m with left := some idx })
           let s3 := modifyN s2 idx (fun m => { m with parent := some node })
           let s4 := { s3 with objectMap := mapSet s3.objectMap objectId idx }
           updateBounds s4 node)
  | f + 1 =>
    if depth ≥ s.maxDepth then
      -- 达到最大深度: force split here
      match getN s node with
      | none => s
      | some n =>
        if n.isLeaf then splitLeaf s node bounds ud objectId
        else
          match n.left, n.right with
          | some l, some r =>
            if growthOf s l bounds ≤ growthOf s r bounds then
              splitLeaf s l bounds ud objectId
            else
              splitLeaf s r bounds ud objectId
          | some l, none => splitLeaf s l bounds ud objectId
          | none, _ =>
            let alloc := allocN s (createLeafNode bounds ud objectId depth)
            let s1 := alloc.1
            let idx := alloc.2
            let s2 := modifyN s1 node (fun m => { m with left := some idx })
            let s3 := modifyN s2 idx (fun m => { m with parent := some node })
            let s4 := { s3 with objectMap := mapSet s3.objectMap objectId idx }
            updateBounds s4 node
    else
      match getN s node with
      | none => s
      | some n =>
        if n.isLeaf then splitLeaf s node bounds ud objectId
        else
          match n.left with
          | none =>
            let alloc := allocN s (createLeafNode bounds ud objectId depth)
            let s1 := alloc.1
            let idx := alloc.2
            let s2 := modifyN s1 node (fun m => { m with left := some idx })
            let s3 := modifyN s2 idx (fun m => { m with parent := some node })
            let s4 := { s3 with objectMap := mapSet s3.objectMap objectId idx }
            updateBounds s4 node
          | some l =>
            match n.right with
            | none =>
              -- rightGrow = Infinity, so leftGrow <= rightGrow: go left
              insertIterativeGo s l bounds ud objectId (depth + 1) f
            | some r =>
              if growthOf s l bounds ≤ growthOf s r bounds then
                insertIterativeGo s l bounds ud objectId (depth + 1) f
              else
                insertIterativeGo s r bounds ud objectId (depth + 1) f

/-- `BVHTree.insert`: allocate the next id, then either create the root
leaf, split the best leaf found, or fall back to the iterative descent
when `findBestLeaf` stopped on an internal node. -/
def insert (s : TreeState) (bounds : Box) (ud : UD) : Int × TreeState :=
  let objectId := s.nextId
  let s0 := { s with nextId := s.nextId + 1 }
  match s0.root with
  | none =>
    let alloc := allocN s0 (createLeafNode bounds ud objectId 0)
    let s1 := alloc.1
    let idx := alloc.2
    (objectId,
      { s1 with root := some idx,
                objectMap := mapSet s1.objectMap objectId idx,
                count := s1.count + 1 })
  | some rootIdx =>
    let targetLeaf := findBestLeaf s0 rootIdx bounds
    let s' :=
      match getN s0 targetLeaf with
      | none => s0
      | some t =>
        if t.isLeaf ∧ shouldSplit s0 targetLeaf then
          splitLeaf s0 targetLeaf bounds ud objectId
        else if t.isLeaf then
          splitLeaf s0 targetLeaf bounds ud objectId
        else
          insertIterativeGo s0 rootIdx bounds ud objectId 0 (s0.maxDepth * 2)
    (objectId, { s' with count := s'.count + 1 })

/-- `BVHTree.update`: look the leaf up, replace its bounds, refit the
parent chain; `false` without any mutation when the id is unknown. -/
def update (s : TreeState) (objectId : Int) (newBounds : Box) :
    Bool × TreeState :=
  match mapGet s.objectMap objectId with
  | none => (false, s)
  | some i =>
    let s1 := modifyN s i (fun n => { n with bounds := newBounds })
    match (getN s1 i).bind (·.parent) with
    | some p => (true, updateBounds s1 p)
    | none => (true, s1)

/-- `BVHTree.remove`: detach the leaf; splice the sibling into the
parent's place (or convert a childless parent into an empty leaf); `false`
without mutation on an unknown id or a mapped non-leaf. -/
def remove (s : TreeState) (objectId : Int) : Bool × TreeState :=
  match mapGet s.objectMap objectId with
  | none => (false, s)
  | some i =>
    match getN s i with
    | none => (false, s)
    | some n =>
      if !n.isLeaf then (false, s)
      else
        let s1 := { s with objectMap := mapDel s.objectMap objectId,
                           count := s.count - 1 }
        match n.parent with
        | none => (true, { s1 with root := none })
        | some p =>
          match getN s1 p with
          | none => (true, s1)
          | some pn =>
            let sibling := if pn.left = some i then pn.right else pn.left
            match sibling with
            | none =>
              let s2 := setN s1 p
                { pn with isLeaf := true, userData := UD.null, objectId := -1,
                          left := none, right := none }
              (match pn.parent with
               | some gp => (true, updateBounds s2 gp)
               | none => (true, s2))
            | some sib =>
              match pn.parent with
              | some gp =>
                let s2 := modifyN s1 gp (fun g =>
                  if g.left = some p then { g with left := some sib }
                  else { g with right := some sib })
                let s3 := modifyN s2 sib (fun m => { m with parent := some gp })
                (true, updateBounds s3 gp)
              | none =>
                let s2 := { s1 with root := some sib }
                let s3 := modifyN s2 sib (fun m => { m with parent := none })
                (true, s3)

/-- `BVHTree.clear` (the arena keeps the now-unreachable nodes, as the
garbage collector's heap would). -/
def clear (s : TreeState) : TreeState :=
  { s with root := none, count := 0, objectMap := [], nextId := 0 }

/-- `CollisionResult`. -/
structure CollisionResult where
  object : UD
  distance : F
  point : V3F
  normal : V3F
  node : Nat
deriving DecidableEq, Repr

/-- `BVHTree.calculateNormal`: outward axis normal picked by the largest
component of `point − center`. -/
def calculateNormal (bounds : Box) (point : V3F) : V3F :=
  let c := boxCenter bounds
  let dx := F.sub point.x (.fin c.x)
  let dy := F.sub point.y (.fin c.y)
  let dz := F.sub point.z (.fin c.z)
  if F.gtF (F.absF dx) (F.absF dy) && F.gtF (F.absF dx) (F.absF dz) then
    ⟨F.signF dx, .fin 0, .fin 0⟩
  else if F.gtF (F.absF dy) (F.absF dz) then
    ⟨.fin 0, F.signF dy, .fin 0⟩
  else
    ⟨.fin 0, .fin 0, F.signF dz⟩

/-- Slab distance from the ray to the bounds of the node at index `i`
(`AABB.fromBoundingBox(child.bounds).intersectRayDistance(ray)`). -/
def childDist (s : TreeState) (i : Nat) (ray : Ray) : Option F :=
  match getN s i with
  | some n => intersectRayDistance n.bounds.toF ray
  | none => none

/-- The stack loop of `BVHTree.raycastIterative`: emit payload leaves
whose AABB the ray hits within `maxDistance`; prune internal nodes on a
slab miss or a slab distance beyond `maxDistance`; push the nearer child
on top. -/
def raycastGo (s : TreeState) (ray : Ray) (md : Option F)
    (stack : List Nat) (acc : List CollisionResult) (fuel : Nat) :
    List CollisionResult :=
  match stack, fuel with
  | [], _ => acc
  | _, 0 => acc
  | i :: rest, f + 1 =>
    match getN s i with
    | none => raycastGo s ray md rest acc f
    | some n =>
      if n.isLeaf then
        if n.objectId < 0 then raycastGo s ray md rest acc f
        else
          match intersectRayDistance n.bounds.toF ray with
          | some d =>
            if (match md with
                | none => true
                | some m => F.leF d m) then
              let point := getPointF ray d
              let normal := calculateNormal n.bounds point
              raycastGo s ray md rest
                (acc ++ [⟨n.userData, d, point, normal, i⟩]) f
            else raycastGo s ray md rest acc f
          | none => raycastGo s ray md rest acc f
      else
        match intersectRayDistance n.bounds.toF ray with
        | none => raycastGo s ray md rest acc f
        | some nd =>
          if (match md with
              | none => false
              | some m => F.gtF nd m) then
            raycastGo s ray md rest acc f
          else
            match n.left, n.right with
            | some l, some r =>
              (match childDist s l ray, childDist s r ray with
               | some a, some b =>
                 if F.leF a b then raycastGo s ray md (l :: r :: rest) acc f
                 else raycastGo s ray md (r :: l :: rest) acc f
               | some _, none => raycastGo s ray md (l :: rest) acc f
               | none, some _ => raycastGo s ray md (r :: rest) acc f
               | none, none => raycastGo s ray md rest acc f)
            | some l, none => raycastGo s ray md (l :: rest) acc f
            | none, some r => raycastGo s ray md (r :: rest) acc f
            | none, none => raycastGo s ray md rest acc f

/-- The comparator of `results.sort((a, b) => a.distance - b.distance)`:
ascending by distance.  On the distances the kernel emits (finite or `+∞`,
never NaN or `−∞`) the key order `F.toKey` coincides with the JS numeric
comparator. -/
def crLe (a b : CollisionResult) : Bool :=
  decide (F.toKey a.distance ≤ F.toKey b.distance)

/-- `results.sort(...)`. -/
def sortResults (l : List CollisionResult) : List CollisionResult :=
  l.mergeSort crLe

/-- `BVHTree.raycast`. -/
def raycast (s : TreeState) (ray : Ray) (md : Option F) :
    List CollisionResult :=
  match s.root with
  | none => []
  | some r =>
    sortResults (raycastGo s ray md [r] [] (2 * s.count + 1000).toNat)

/-- The stack loop of `BVHTree.queryRangeIterative`: NOTE the source emits
at every payload leaf with defined `userData` it reaches, with no
leaf-level overlap test; only internal nodes are tested against the query
box. -/
def queryRangeGo (s : TreeState) (range : Box) (stack : List Nat)
    (acc : List UD) (fuel : Nat) : List UD :=
  match stack, fuel with
  | [], _ => acc
  | _, 0 => acc
  | i :: rest, f + 1 =>
    match getN s i with
    | none => queryRangeGo s range rest acc f
    | some n =>
      if n.isLeaf then
        if 0 ≤ n.objectId ∧ n.userData ≠ UD.undef then
          queryRangeGo s range rest (acc ++ [n.userData]) f
        else queryRangeGo s range rest acc f
      else
        if !intersectAABBF n.bounds.toF range.toF then
          queryRangeGo s range rest acc f
        else
          let st1 := match n.right with
            | some r => r :: rest
            | none => rest
          let st2 := match n.left with
            | some l => l :: st1
            | none => st1
          queryRangeGo s range st2 acc f

/-- `BVHTree.queryRange`. -/
def queryRange (s : TreeState) (center : V3) (radius : ℚ) : List UD :=
  match s.root with
  | none => []
  | some r =>
    let rangeAABB :=
      fromCenterSize center ⟨radius * 2, radius * 2, radius * 2⟩
    queryRangeGo s rangeAABB [r] [] (2 * s.count + 1000).toNat

/-- `BVHTree.getDistanceToBounding`, squared: the source clamps the point
into the box and takes the Euclidean distance; we compute the squared
distance (the square root is irrational in general), and the callers below
compare squared values throughout — every comparison the source makes
between two nonnegative distances, or a distance and a nonnegative cap, is
preserved. -/
def getDistSqToBounding (pos : V3) (b : Box) : ℚ :=
  let nx := max b.bmin.x (min pos.x b.bmax.x)
  let ny := max b.bmin.y (min pos.y b.bmax.y)
  let nz := max b.bmin.z (min pos.z b.bmax.z)
  (pos.x - nx) ^ 2 + (pos.y - ny) ^ 2 + (pos.z - nz) ^ 2

/-- The stack loop of `BVHTree.findNearestIterative` (with squared
distances; `mdSq` is the squared `maxDistance`, `none` when the caller
omitted it): prune when the node's distance exceeds the cap; collect
candidates only at payload leaves with defined `userData`. -/
def findNearestGo (s : TreeState) (pos : V3) (mdSq : Option ℚ)
    (stack : List Nat) (acc : List (ℚ × UD)) (fuel : Nat) :
    List (ℚ × UD) :=
  match stack, fuel with
  | [], _ => acc
  | _, 0 => acc
  | i :: rest, f + 1 =>
    match getN s i with
    | none => findNearestGo s pos mdSq rest acc f
    | some n =>
      let minD := getDistSqToBounding pos n.bounds
      if (match mdSq with
          | some m => decide (m < minD)
          | none => false) then
        findNearestGo s pos mdSq rest acc f
      else if n.isLeaf then
        if n.objectId < 0 ∨ n.userData = UD.undef then
          findNearestGo s pos mdSq rest acc f
        else if (match mdSq with
                 | none => true
                 | some m => decide (minD ≤ m)) then
          findNearestGo s pos mdSq rest (acc ++ [(minD, n.userData)]) f
        else findNearestGo s pos mdSq rest acc f
      else
        match n.left, n.right with
        | some l, some r =>
          let ld := match getN s l with
            | some ln => getDistSqToBounding pos ln.bounds
            | none => 0
          let rd := match getN s r with
            | some rn => getDistSqToBounding pos rn.bounds
            | none => 0
          if ld ≤ rd then findNearestGo s pos mdSq (l :: r :: rest) acc f
          else findNearestGo s pos mdSq (r :: l :: rest) acc f
        | some l, none => findNearestGo s pos mdSq (l :: rest) acc f
        | none, some r => findNearestGo s pos mdSq (r :: rest) acc f
        | none, none => findNearestGo s pos mdSq rest acc f

/-- `BVHTree.findNearest` (result `UD.null` models the JS `null` returned
for an empty tree or no candidates): sort candidates ascending by
distance and return the first one's data. -/
def findNearest (s : TreeState) (pos : V3) (mdSq : Option ℚ) : UD :=
  match s.root with
  | none => UD.null
  | some r =>
    let cands := findNearestGo s pos mdSq [r] [] (2 * s.count + 1000).toNat
    match cands.mergeSort (fun a b => decide (a.1 ≤ b.1)) with
    | [] => UD.null
    | c :: _ => c.2

/-- The stack loop of `BVHTree.intersectBoundsIterative`: unlike
`queryRangeIterative` this one does test the leaf's own AABB against the
query box. -/
def intersectBoundsGo (s : TreeState) (check : Box) (stack : List Nat)
    (acc : List UD) (fuel : Nat) : List UD :=
  match stack, fuel with
  | [], _ => acc
  | _, 0 => acc
  | i :: rest, f + 1 =>
    match getN s i with
    | none => intersectBoundsGo s check rest acc f
    | some n =>
      if n.isLeaf then
        if 0 ≤ n.objectId ∧ n.userData ≠ UD.undef then
          if intersectAABBF n.bounds.toF check.toF then
            intersectBoundsGo s check rest (acc ++ [n.userData]) f
          else intersectBoundsGo s check rest acc f
        else intersectBoundsGo s check rest acc f
      else
        if !intersectAABBF n.bounds.toF check.toF then
          intersectBoundsGo s check rest acc f
        else
          let st1 := match n.right with
            | some r => r :: rest
            | none => rest
          let st2 := match n.left with
            | some l => l :: st1
            | none => st1
          intersectBoundsGo s check st2 acc f

/-- `BVHTree.intersectBounds`. -/
def intersectBounds (s : TreeState) (bounds : Box) : List UD :=
  match s.root with
  | none => []
  | some r => intersectBoundsGo s bounds [r] [] (2 * s.count + 1000).toNat

/-- The structured errors `BVHTree.validate` can report. -/
inductive VErr where
  | rootNullCount
  | cycle
  | depthMismatch
  | dupId
  | notInMap
  | leafHasChildren
  | missingLeft
  | badLeftParent
  | badRightParent
  | countMismatch
deriving DecidableEq, Repr

/-- The stack loop of `BVHTree.validate`, collecting seen object ids and
errors. -/
def validateGo (s : TreeState) (stack : List (Nat × Nat))
    (visited : List Nat) (seen : List Int) (errs : List VErr)
    (fuel : Nat) : List Int × List VErr :=
  match stack, fuel with
  | [], _ => (seen, errs)
  | _, 0 => (seen, errs)
  | (i, depth) :: rest, f + 1 =>
    match getN s i with
    | none => validateGo s rest visited seen errs f
    | some n =>
      if i ∈ visited then
        validateGo s rest visited seen (errs ++ [.cycle]) f
      else
        let errs := if n.depth ≠ depth then errs ++ [.depthMismatch] else errs
        if n.isLeaf then
          let seenErrs :=
            if 0 ≤ n.objectId then
              if n.objectId ∈ seen then (seen, errs ++ [.dupId])
              else
                (seen ++ [n.objectId],
                 if (mapGet s.objectMap n.objectId).isNone then
                   errs ++ [.notInMap]
                 else errs)
            else (seen, errs)
          let errs2 :=
            if n.left.isSome ∨ n.right.isSome then
              seenErrs.2 ++ [.leafHasChildren]
            else seenErrs.2
          validateGo s rest (i :: visited) seenErrs.1 errs2 f
        else
          let leftPart : List (Nat × Nat) × List VErr :=
            match n.left with
            | none => ([], errs ++ [.missingLeft])
            | some l =>
              ([(l, depth + 1)],
               if ((getN s l).bind (·.parent)) ≠ some i then
                 errs ++ [.badLeftParent]
               else errs)
          let rightPart : List (Nat × Nat) × List VErr :=
            match n.right with
            | none => ([], leftPart.2)
            | some r =>
              ([(r, depth + 1)],
               if ((getN s r).bind (·.parent)) ≠ some i then
                 leftPart.2 ++ [.badRightParent]
               else leftPart.2)
          validateGo s (rightPart.1 ++ leftPart.1 ++ rest) (i :: visited)
            seen rightPart.2 f

/-- `BVHTree.validate`. -/
def validate (s : TreeState) : Bool × List VErr :=
  match s.root with
  | none =>
    (s.count = 0, if s.count ≠ 0 then [.rootNullCount] else [])
  | some r =>
    let res := validateGo s [(r, 0)] [] [] [] (2 * s.count + 1000).toNat
    let errs :=
      if (res.1.length : Int) ≠ s.count then res.2 ++ [.countMismatch]
      else res.2
    (errs.isEmpty, errs)

/-- The measure the claims quantify: the number of leaves reachable from
the root whose `objectId` is nonnegative (depth-first with a visited set;
the fuel `2·|arena| + 2` cannot run out on an acyclic state). -/
def countPayloadLeavesGo (s : TreeState) (stack visited : List Nat)
    (acc : Nat) (fuel : Nat) : Nat :=
  match stack, fuel with
  | [], _ => acc
  | _, 0 => acc
  | i :: rest, f + 1 =>
    if i ∈ visited then countPayloadLeavesGo s rest visited acc f
    else
      match getN s i with
      | none => countPayloadLeavesGo s rest (i :: visited) acc f
      | some n =>
        if n.isLeaf then
          countPayloadLeavesGo s rest (i :: visited)
            (if 0 ≤ n.objectId then acc + 1 else acc) f
        else
          let st1 := match n.left with
            | some l => l :: rest
            | none => rest
          let st2 := match n.right with
            | some r => r :: st1
            | none => st1
          countPayloadLeavesGo s st2 (i :: visited) acc f

/-- Number of payload leaves reachable from the root. -/
def countPayloadLeaves (s : TreeState) : Nat :=
  match s.root with
  | none => 0
  | some r => countPayloadLeavesGo s [r] [] 0 (2 * s.nodes.length + 2)

/-- Collect the tree-reachable node indices; the flag turns `false` when a
node is reached twice (sharing/cycle), a reference dangles, or the fuel
runs out. -/
def reachGo (s : TreeState) (stack visited : List Nat) (ok : Bool)
    (fuel : Nat) : List Nat × Bool :=
  match stack, fuel with
  | [], _ => (visited, ok)
  | _, 0 => (visited, false)
  | i :: rest, f + 1 =>
    if i ∈ visited then reachGo s rest visited false f
    else
      match getN s i with
      | none => reachGo s rest visited false f
      | some n =>
        let st1 := match n.left with
          | some l => l :: rest
          | none => rest
        let st2 := match n.right with
          | some r => r :: st1
          | none => st1
        reachGo s st2 (i :: visited) ok f

/-- Componentwise box containment (`outer ⊇ inner`). -/
def boxContains (outer inner : Box) : Bool :=
  decide (outer.bmin.x ≤ inner.bmin.x) && decide (outer.bmin.y ≤ inner.bmin.y) &&
  decide (outer.bmin.z ≤ inner.bmin.z) && decide (inner.bmax.x ≤ outer.bmax.x) &&
  decide (inner.bmax.y ≤ outer.bmax.y) && decide (inner.bmax.z ≤ outer.bmax.z)

/-- The spec's structural invariants (§8) as a decidable check: acyclic
reachable tree; root at depth 0 with no parent; internal nodes have a left
child, children point back to their parent, sit one level deeper and are
covered by the parent's bounds; leaves are childless; `count` equals the
number of payload leaves; `objectMap` is a duplicate-free bijection onto
the payload leaves with ids in `[0, nextId)`. -/
def wfState (s : TreeState) : Bool :=
  match s.root with
  | none => decide (s.count = 0) && decide (s.objectMap = [])
  | some r =>
    let reach := reachGo s [r] [] true (2 * s.nodes.length + 2)
    reach.2 &&
    (match getN s r with
     | some rn => rn.parent = none && rn.depth = 0
     | none => false) &&
    reach.1.all (fun i =>
      match getN s i with
      | none => false
      | some n =>
        if n.isLeaf then n.left = none && n.right = none
        else
          match n.left with
          | none => false
          | some l =>
            (match getN s l with
             | some ln =>
               ln.parent = some i && ln.depth = n.depth + 1 &&
                 boxContains n.bounds ln.bounds
             | none => false) &&
            (match n.right with
             | none => true
             | some rr =>
               match getN s rr with
               | some rn =>
                 rn.parent = some i && rn.depth = n.depth + 1 &&
                   boxContains n.bounds rn.bounds
               | none => false)) &&
    decide (s.count = (countPayloadLeaves s : Int)) &&
    s.objectMap.all (fun e =>
      decide (0 ≤ e.1) && decide (e.1 < s.nextId) && decide (e.2 ∈ reach.1) &&
      (match getN s e.2 with
       | some n => n.isLeaf && decide (n.objectId = e.1)
       | none => false)) &&
    reach.1.all (fun i =>
      match getN s i with
      | some n => !n.isLeaf || decide (n.objectId < 0) ||
          mapGet s.objectMap n.objectId = some i
      | none => false) &&
    decide (s.objectMap.map Prod.fst).Nodup

/-! ### Mesh BVH (`MeshBVH`), triangle kernel (`Triangle`) -/

/-- Componentwise difference. -/
def V3.vsub (u v : V3) : V3 := ⟨u.x - v.x, u.y - v.y, u.z - v.z⟩

/-- Dot product. -/
def V3.dot (u v : V3) : ℚ := u.x * v.x + u.y * v.y + u.z * v.z

/-- Cross product. -/
def V3.cross (u v : V3) : V3 :=
  ⟨u.y * v.z - u.z * v.y, u.z * v.x - u.x * v.z, u.x * v.y - u.y * v.x⟩

/-- `Triangle`: three vertices, the index in the source mesh, user data. -/
structure Tri where
  a : V3
  b : V3
  c : V3
  index : Int
  ud : UD
deriving DecidableEq, Repr

/-- `Triangle.getCenter`: mean of the three vertices. -/
def triGetCenter (t : Tri) : V3 :=
  ⟨(t.a.x + t.b.x + t.c.x) / 3, (t.a.y + t.b.y + t.c.y) / 3,
   (t.a.z + t.b.z + t.c.z) / 3⟩

/-- The triangle kernel's `EPSILON = 1e-8`. -/
def EPS : ℚ := 1 / 100000000

/-- `Triangle.intersectRay` (Möller–Trumbore; exact rational
arithmetic — the guard `|det| ≥ ε` makes the division well-defined). -/
def triIntersectRay (t : Tri) (ray : Ray) (cull : Bool) : Option ℚ :=
  let edge1 := t.b.vsub t.a
  let edge2 := t.c.vsub t.a
  let h := ray.direction.cross edge2
  let det := edge1.dot h
  if cull ∧ det < EPS then none
  else if |det| < EPS then none
  else
    let invDet := 1 / det
    let sv := ray.origin.vsub t.a
    let u := invDet * sv.dot h
    if u < 0 ∨ u > 1 then none
    else
      let q := sv.cross edge1
      let v := invDet * ray.direction.dot q
      if v < 0 ∨ u + v > 1 then none
      else
        let tt := invDet * edge2.dot q
        if tt > EPS then some tt else none

/-- `Triangle.getBarycentricCoords` (the source re-runs the same kernel
and returns `(u, v, 1 − u − v)`). -/
def triGetBarycentric (t : Tri) (ray : Ray) (cull : Bool) :
    Option (ℚ × ℚ × ℚ) :=
  let edge1 := t.b.vsub t.a
  let edge2 := t.c.vsub t.a
  let h := ray.direction.cross edge2
  let det := edge1.dot h
  if cull ∧ det < EPS then none
  else if |det| < EPS then none
  else
    let invDet := 1 / det
    let sv := ray.origin.vsub t.a
    let u := invDet * sv.dot h
    if u < 0 ∨ u > 1 then none
    else
      let q := sv.cross edge1
      let v := invDet * ray.direction.dot q
      if v < 0 ∨ u + v > 1 then none
      else
        let tt := invDet * edge2.dot q
        if tt ≤ EPS then none
        else some (u, v, 1 - u - v)

/-- `Ray.getPoint` over finite data (used for triangle hit points, whose
distances are finite rationals). -/
def getPointQ (ray : Ray) (distance : ℚ) : V3 :=
  ⟨ray.origin.x + ray.direction.x * distance,
   ray.origin.y + ray.direction.y * distance,
   ray.origin.z + ray.direction.z * distance⟩

/-- `MeshBVH.computeBounds`: fold min/max over all vertices starting from
the `±∞` empty AABB (hence the `BoxF` result; it is finite whenever the
triangle list is nonempty). -/
def computeBounds (tris : List Tri) : BoxF :=
  tris.foldl
    (fun acc t =>
      let upd := fun (bb : BoxF) (v : V3) =>
        (⟨⟨F.minF bb.bmin.x (.fin v.x), F.minF bb.bmin.y (.fin v.y),
           F.minF bb.bmin.z (.fin v.z)⟩,
          ⟨F.maxF bb.bmax.x (.fin v.x), F.maxF bb.bmax.y (.fin v.y),
           F.maxF bb.bmax.z (.fin v.z)⟩⟩ : BoxF)
      upd (upd (upd acc t.a) t.b) t.c)
    emptyAABB

/-- `AABB.union` over JS numbers (as `MeshBVH.splitSAH` uses it). -/
def BoxF.unionF (a b : BoxF) : BoxF :=
  ⟨⟨F.minF a.bmin.x b.bmin.x, F.minF a.bmin.y b.bmin.y,
    F.minF a.bmin.z b.bmin.z⟩,
   ⟨F.maxF a.bmax.x b.bmax.x, F.maxF a.bmax.y b.bmax.y,
    F.maxF a.bmax.z b.bmax.z⟩⟩

/-- `AABB.surfaceArea` over JS numbers. -/
def surfaceAreaF (b : BoxF) : F :=
  let sx := F.sub b.bmax.x b.bmin.x
  let sy := F.sub b.bmax.y b.bmin.y
  let sz := F.sub b.bmax.z b.bmin.z
  F.mul (.fin 2)
    (F.add (F.add (F.mul sx sy) (F.mul sy sz)) (F.mul sz sx))

/-- `AABB.getCenter` over JS numbers. -/
def boxCenterF (b : BoxF) : V3F :=
  ⟨F.mul (F.add b.bmin.x b.bmax.x) (.fin (1 / 2)),
   F.mul (F.add b.bmin.y b.bmax.y) (.fin (1 / 2)),
   F.mul (F.add b.bmin.z b.bmax.z) (.fin (1 / 2))⟩

/-- Axis selector over JS numbers. -/
def axisGetF (v : V3F) (axis : Nat) : F :=
  if axis = 0 then v.x else if axis = 1 then v.y else v.z

/-- `bounds === null ? b : bounds.union(b)` over JS numbers. -/
def unionOptF (acc : Option BoxF) (b : BoxF) : Option BoxF :=
  match acc with
  | none => some b
  | some a => some (a.unionF b)

/-- The mesh SAH bucket index
`Math.max(0, Math.min(⌊(centroid − axisMin)/axisRange · 32⌋, 31))`; the
value is finite on every path the guards let through (`axisRange > 0`
finite, finite centroids), and non-finite values — which the source could
only meet by indexing an array with `NaN` — are mapped to bucket 0. -/
def bucketIdxF (x : F) (nb : Nat) : Nat :=
  match x with
  | .fin q => (max 0 (min ⌊q⌋ (nb - 1 : ℤ))).toNat
  | _ => 0

/-- `BVHBuildStrategy`. -/
inductive Strategy where
  | SAH
  | Median
  | Equal
deriving DecidableEq, Repr

/-- `MeshBVH.splitMedian`: sort by centroid along the longest axis and cut
at `⌊n/2⌋`. -/
def splitMedian (tris : List Tri) (parentBounds : BoxF) :
    List Tri × List Tri :=
  let sizeX := F.sub parentBounds.bmax.x parentBounds.bmin.x
  let sizeY := F.sub parentBounds.bmax.y parentBounds.bmin.y
  let sizeZ := F.sub parentBounds.bmax.z parentBounds.bmin.z
  let axis : Nat :=
    if F.gtF sizeY sizeX && F.gtF sizeY sizeZ then 1
    else if F.gtF sizeZ sizeX then 2
    else 0
  let sorted := tris.mergeSort (fun a b =>
    decide (axisGet (triGetCenter a) axis ≤ axisGet (triGetCenter b) axis))
  let mid := sorted.length / 2
  (sorted.take mid, sorted.drop mid)

/-- `MeshBVH.splitEqual`: cut at the parent's center along the longest
axis; fall back to the median split when one side is empty. -/
def splitEqual (tris : List Tri) (parentBounds : BoxF) :
    List Tri × List Tri :=
  let sizeX := F.sub parentBounds.bmax.x parentBounds.bmin.x
  let sizeY := F.sub parentBounds.bmax.y parentBounds.bmin.y
  let sizeZ := F.sub parentBounds.bmax.z parentBounds.bmin.z
  let axis : Nat :=
    if F.gtF sizeY sizeX && F.gtF sizeY sizeZ then 1
    else if F.gtF sizeZ sizeX then 2
    else 0
  let splitPos := axisGetF (boxCenterF parentBounds) axis
  let part := tris.partition (fun t =>
    F.ltF (.fin (axisGet (triGetCenter t) axis)) splitPos)
  if part.1.isEmpty || part.2.isEmpty then splitMedian tris parentBounds
  else part

/-- `MeshBVH.splitSAH`: for each axis, 32 centroid bins, prefix sweeps and
the cost `1.0 + (SA_L/SA_P)·n_L·1.25 + (SA_R/SA_P)·n_R·1.25`; the best
split position is `axisMin + ((i+1)/32)·axisRange`; falls back to the
median split when the parent has no positive surface area or no candidate
beats the leaf cost `1.25·n`. -/
def splitSAH (tris : List Tri) (parentBounds : BoxF) :
    List Tri × List Tri :=
  let parentSA := surfaceAreaF parentBounds
  if F.leF parentSA (.fin 0) then splitMedian tris parentBounds
  else
    let centers := tris.map triGetCenter
    let best := (List.range 3).foldl
      (fun (best : Int × F × F) axis =>
        let axisMin := axisGetF parentBounds.bmin axis
        let axisMax := axisGetF parentBounds.bmax axis
        let axisRange := F.sub axisMax axisMin
        if F.leF axisRange (.fin 0) then best
        else
          let buckets := (tris.zip centers).foldl
            (fun bs tc =>
              let centroid := axisGet tc.2 axis
              let idx := bucketIdxF
                (F.mul (F.div (F.sub (.fin centroid) axisMin) axisRange)
                  (.fin 32)) 32
              modifyIdx bs idx
                (fun cb => (cb.1 + 1, unionOptF cb.2 (computeBounds [tc.1]))))
            (List.replicate 32 ((0 : Nat), (none : Option BoxF)))
          let lefts := (buckets.foldl
            (fun (st : List (Option BoxF × Nat) × (Option BoxF × Nat)) cb =>
              let accCount := st.2.2 + cb.1
              let accBounds := match cb.2 with
                | none => st.2.1
                | some bb => unionOptF st.2.1 bb
              (st.1 ++ [(accBounds, accCount)], (accBounds, accCount)))
            ([], (none, 0))).1
          let rights := ((buckets.reverse.foldl
            (fun (st : List (Option BoxF × Nat) × (Option BoxF × Nat)) cb =>
              let accCount := st.2.2 + cb.1
              let accBounds := match cb.2 with
                | none => st.2.1
                | some bb => unionOptF st.2.1 bb
              (st.1 ++ [(accBounds, accCount)], (accBounds, accCount)))
            ([], (none, 0))).1).reverse
          (List.range 31).foldl
            (fun best i =>
              match lefts.get? i, rights.get? (i + 1) with
              | some lcb, some rcb =>
                if lcb.2 = 0 ∨ rcb.2 = 0 then best
                else
                  match lcb.1, rcb.1 with
                  | some lb, some rb =>
                    let cost :=
                      F.add
                        (F.add (.fin 1)
                          (F.mul
                            (F.mul (F.div (surfaceAreaF lb) parentSA)
                              (.fin lcb.2))
                            (.fin (5 / 4))))
                        (F.mul
                          (F.mul (F.div (surfaceAreaF rb) parentSA)
                            (.fin rcb.2))
                          (.fin (5 / 4)))
                    if F.ltF cost best.2.2 then
                      (axis,
                       F.add axisMin
                         (F.mul (F.div (.fin (i + 1 : Nat)) (.fin 32))
                           axisRange),
                       cost)
                    else best
                  | _, _ => best
              | _, _ => best)
            best)
      (-1, .fin 0, .fin (5 / 4 * tris.length))
    if best.1 = -1 then splitMedian tris parentBounds
    else
      (tris.zip centers).partition
        (fun tc =>
          F.ltF (.fin (axisGet tc.2 best.1.toNat)) best.2.1)
      |>.map (List.map Prod.fst) (List.map Prod.fst)

/-- `MeshBVHNode`, as `buildNode` produces it: a leaf carries its triangle
list, an internal node always carries both children. -/
inductive MNode where
  | leaf (bounds : BoxF) (tris : List Tri) (depth : Nat)
  | node (bounds : BoxF) (l r : MNode) (depth : Nat)
deriving DecidableEq, Repr

/-- A mesh node's bounds. -/
def MNode.bounds : MNode → BoxF
  | .leaf b _ _ => b
  | .node b _ _ _ => b

/-- `MeshBVH.buildNode`: leaf when small enough or deep enough; otherwise
split by the strategy (the `Equal` arm is also the source's `default`),
with a leaf fallback when a side comes back empty. -/
def buildNode (maxLeafTriangles maxDepth : Nat) (strategy : Strategy)
    (tris : List Tri) (depth : Nat) : MNode :=
  let bounds := computeBounds tris
  if h : tris.length ≤ maxLeafTriangles ∨ depth ≥ maxDepth then
    .leaf bounds tris depth
  else
    let sr := match strategy with
      | .SAH => splitSAH tris bounds
      | .Median => splitMedian tris bounds
      | .Equal => splitEqual tris bounds
    if sr.1.isEmpty ∨ sr.2.isEmpty then .leaf bounds tris depth
    else
      .node bounds
        (buildNode maxLeafTriangles maxDepth strategy sr.1 (depth + 1))
        (buildNode maxLeafTriangles maxDepth strategy sr.2 (depth + 1))
        depth
termination_by maxDepth - depth
decreasing_by
  all_goals
    simp only [not_or, not_le] at h
    omega

/-- `MeshBVH` state. -/
structure Mesh where
  root : Option MNode
  triangles : List Tri
  maxLeafTriangles : Nat
  maxDepth : Nat
  strategy : Strategy

/-- `new MeshBVH(maxLeafTriangles, maxDepth, strategy)` with its
`Math.max(1, ·)` clamps. -/
def mkMeshBVH (maxLeafTriangles maxDepth : Nat) (st : Strategy) : Mesh :=
  ⟨none, [], max 1 maxLeafTriangles, max 1 maxDepth, st⟩

/-- `MeshBVH.buildFromTriangles` followed by `build`. -/
def buildFromTriangles (m : Mesh) (tris : List Tri) : Mesh :=
  { m with
    triangles := tris,
    root :=
      if tris.isEmpty then none
      else some (buildNode m.maxLeafTriangles m.maxDepth m.strategy tris 0) }

/-- `MeshRaycastHit`. -/
structure MeshHit where
  triangle : Tri
  distance : ℚ
  point : V3
  triangleIndex : Int
  bary : Option (ℚ × ℚ × ℚ)
deriving DecidableEq, Repr

/-- The per-triangle body of the leaf loops in `MeshBVH.raycastNodeFirst`
and `raycastNode`: test the triangle, emit a `MeshRaycastHit` when the
distance is within `maxDistance`. -/
def emitTriStep (ray : Ray) (md : F) (cull : Bool) (acc : List MeshHit)
    (t : Tri) : List MeshHit :=
  match triIntersectRay t ray cull with
  | some d =>
    if F.leF (.fin d) md then
      acc ++ [⟨t, d, getPointQ ray d, t.index, triGetBarycentric t ray cull⟩]
    else acc
  | none => acc

/-- `MeshBVH.raycastNodeFirst` as the ordered sequence of `onHit`
callbacks it fires: prune a node when its slab test misses or its slab
distance exceeds `maxDistance`; at leaves test every triangle in order; at
internal nodes visit the slab-nearer child first. -/
def raycastNodeFirst (n : MNode) (ray : Ray) (md : F) (cull : Bool) :
    List MeshHit :=
  match n with
  | .leaf bounds tris _ =>
    (match intersectRayDistance bounds ray with
     | none => []
     | some bd =>
       if F.gtF bd md then []
       else tris.foldl (emitTriStep ray md cull) [])
  | .node bounds l r _ =>
    (match intersectRayDistance bounds ray with
     | none => []
     | some bd =>
       if F.gtF bd md then []
       else
         match intersectRayDistance l.bounds ray,
             intersectRayDistance r.bounds ray with
         | some a, some b =>
           if F.leF a b then
             raycastNodeFirst l ray md cull ++ raycastNodeFirst r ray md cull
           else
             raycastNodeFirst r ray md cull ++ raycastNodeFirst l ray md cull
         | some _, none => raycastNodeFirst l ray md cull
         | none, some _ => raycastNodeFirst r ray md cull
         | none, none => [])

/-- One step of `MeshBVH.raycastFirst`'s callback: a strictly closer hit
replaces the best and lowers `closestDistance`. -/
def selStep (best : Option MeshHit × F) (h : MeshHit) :
    Option MeshHit × F :=
  if F.ltF (.fin h.distance) best.2 then (some h, .fin h.distance)
  else best

/-- The best-hit selection of `MeshBVH.raycastFirst`'s callback:
`closestDistance` starts at `maxDistance`. -/
def selectClosest (hits : List MeshHit) (md : F) : Option MeshHit × F :=
  hits.foldl selStep (none, md)

/-- `MeshBVH.raycastFirst`. -/
def raycastFirst (m : Mesh) (ray : Ray) (md : F) (cull : Bool) :
    Option MeshHit :=
  match m.root with
  | none => none
  | some r => (selectClosest (raycastNodeFirst r ray md cull) md).1

/-- One step of `MeshBVH.raycastBruteForce`'s scan: keep the strictly
closest hit seen so far. -/
def bfStep (ray : Ray) (cull : Bool) (best : Option MeshHit × F)
    (t : Tri) : Option MeshHit × F :=
  match triIntersectRay t ray cull with
  | some d =>
    if F.ltF (.fin d) best.2 then
      (some ⟨t, d, getPointQ ray d, t.index, triGetBarycentric t ray cull⟩,
       .fin d)
    else best
  | none => best

/-- `MeshBVH.raycastBruteForce`: linear scan over all triangles keeping
the strictly closest hit below `maxDistance`. -/
def raycastBruteForce (m : Mesh) (ray : Ray) (md : F) (cull : Bool) :
    Option MeshHit :=
  (m.triangles.foldl (bfStep ray cull) (none, md)).1

/-- The triangles stored in a subtree's leaves, in traversal order. -/
def leafTris : MNode → List Tri
  | .leaf _ tris _ => tris
  | .node _ l r _ => leafTris l ++ leafTris r

/-- The triangles stored in a mesh's leaves. -/
def meshLeafTris (m : Mesh) : List Tri :=
  match m.root with
  | some r => leafTris r
  | none => []

/-- What it means for one raycast hit to be genuine on state `s`: its
`node` names a payload leaf of the arena whose AABB the ray hits at
exactly the reported distance, within the distance cap, and the hit
carries that leaf's user data. -/
def raycastSound (s : TreeState) (ray : Ray) (md : Option F)
    (h : CollisionResult) : Prop :=
  ∃ n, getN s h.node = some n ∧ n.isLeaf = true ∧ 0 ≤ n.objectId ∧
    intersectRayDistance n.bounds.toF ray = some h.distance ∧
    h.object = n.userData ∧
    ∀ m, md = some m → F.leF h.distance m = true

/-! ### Concrete inputs used by the claims' counterexamples and
divergence witnesses -/

/-- A public-mutation opcode (the operations whose `nextId` monotonicity
the amended C8 asserts). -/
inductive Op where
  | ins (b : Box) (ud : UD)
  | upd (id : Int) (b : Box)
  | rem (id : Int)

/-- Apply an opcode to a tree state. -/
def applyOp (s : TreeState) : Op → TreeState
  | .ins b ud => (insert s b ud).2
  | .upd i b => (update s i b).2
  | .rem i => (remove s i).2

/-- C4's failing input: default tree, insert two disjoint boxes, remove
the first; the removed leaf's sibling is spliced into the root position
with its `depth` field still `1`. -/
def c4state : TreeState :=
  (remove
    ((insert ((insert (mkTree 8 32 true) ⟨⟨0, 0, 0⟩, ⟨1, 1, 1⟩⟩
        (UD.val 0)).2) ⟨⟨2, 0, 0⟩, ⟨3, 1, 1⟩⟩ (UD.val 1)).2)
    0).2

/-- C7's failing input: a legal `maxDepth = 1` tree receiving five inserts
steered so that the fifth lands in `insertIterative`'s forced-split branch
with an internal child, which `splitLeaf` then stamps with a payload id
without making it a leaf. -/
def c7state : TreeState :=
  (insert
    ((insert
      ((insert
        ((insert
          ((insert (mkTree 8 1 true) ⟨⟨0, 0, 0⟩, ⟨1, 1, 1⟩⟩ (UD.val 1)).2)
          ⟨⟨100, 0, 0⟩, ⟨101, 1, 1⟩⟩ (UD.val 2)).2)
        ⟨⟨2, 0, 0⟩, ⟨3, 1, 1⟩⟩ (UD.val 3)).2)
      ⟨⟨2/5, 0, 0⟩, ⟨4/5, 1, 1⟩⟩ (UD.val 4)).2)
    ⟨⟨1/2, 0, 0⟩, ⟨3/5, 1, 1⟩⟩ (UD.val 5)).2

/-- C2's failing input: a tree holding one payload whose box `[10,11]³` is
far from the query ball of radius 1 around the origin. -/
def c2state : TreeState :=
  (insert (mkTree 8 32 true) ⟨⟨10, 10, 10⟩, ⟨11, 11, 11⟩⟩ (UD.val 0)).2

/-- C1's counterexample tree: a root whose bounds span both leaves, with
the ray origin placed inside leaf A (and hence inside the root bounds),
so the root's slab distance is its exit distance `99.5`. -/
def c1state : TreeState :=
  ⟨[⟨⟨⟨1, -1, -1⟩, ⟨101, 6, 1⟩⟩, false, 0, some 1, some 2, none, UD.null, -1⟩,
    ⟨⟨⟨1, -1, -1⟩, ⟨2, 1, 1⟩⟩, true, 1, none, none, some 0, UD.val 0, 0⟩,
    ⟨⟨⟨100, 5, -1⟩, ⟨101, 6, 1⟩⟩, true, 1, none, none, some 0, UD.val 1, 1⟩],
   some 0, 8, 32, true, 2, [(0, 1), (1, 2)], 2⟩

/-- C1's ray: origin `(3/2, 0, 0)` (inside leaf A), direction `+x`. -/
def c1ray : Ray := ⟨⟨3/2, 0, 0⟩, ⟨1, 0, 0⟩⟩

/-- C10's tree: one object inserted without a `userData` argument. -/
def c10state : TreeState :=
  (insert (mkTree 8 32 true) ⟨⟨1, -1, -1⟩, ⟨2, 1, 1⟩⟩ UD.undef).2

/-- C8's one-insert state. -/
def c8state : TreeState :=
  (insert (mkTree 8 32 true) ⟨⟨0, 0, 0⟩, ⟨1, 1, 1⟩⟩ (UD.val 0)).2

/-- C3's triangles: one in the plane `z = 1` and two far planes `z = ±100`
that stretch the (single-leaf) tree's bounds along the ray. -/
def trisC3 : List Tri :=
  [⟨⟨-1, -1, 1⟩, ⟨1, -1, 1⟩, ⟨0, 1, 1⟩, 0, UD.null⟩,
   ⟨⟨-1, -1, 100⟩, ⟨1, -1, 100⟩, ⟨0, 1, 100⟩, 1, UD.null⟩,
   ⟨⟨-1, -1, -100⟩, ⟨1, -1, -100⟩, ⟨0, 1, -100⟩, 2, UD.null⟩]

/-- C3's mesh: the three triangles under the default configuration. -/
def meshC3 : Mesh := buildFromTriangles (mkMeshBVH 10 40 .SAH) trisC3

/-- C3's ray: origin `(0,0,2)` — inside the leaf's bounds — pointing down
at the `z = 1` triangle. -/
def rayC3 : Ray := ⟨⟨0, 0, 2⟩, ⟨0, 0, -1⟩⟩

/-- The single triangle of the C3 witness mesh. -/
def triW : Tri := ⟨⟨1, 1, 5⟩, ⟨3, 1, 5⟩, ⟨1, 3, 5⟩, 0, UD.null⟩

/-- The C3 witness mesh. -/
def meshW : Mesh := buildFromTriangles (mkMeshBVH 10 40 .SAH) [triW]

/-- The C3 witness ray, hitting `triW` at distance 5. -/
def rayW : Ray := ⟨⟨2, 2, 0⟩, ⟨0, 0, 1⟩⟩

/-- The concrete object set used to separate the source's SAH split from
the claim's: five unit cubes at the origin and five at `x ∈ [9,10]`. -/
def objsC5 : List BObj :=
  (List.replicate 5 (⟨⟨⟨0, 0, 0⟩, ⟨1, 1, 1⟩⟩, UD.val 0⟩ : BObj)) ++
    List.replicate 5 (⟨⟨⟨9, 0, 0⟩, ⟨10, 1, 1⟩⟩, UD.val 1⟩ : BObj)

/-- The union AABB of `objsC5`. -/
def parentC5 : Box := ⟨⟨0, 0, 0⟩, ⟨10, 1, 1⟩⟩

/-! ## Theorems -/

/-! ### Facts about the slab kernel on the default empty AABB (claim C6) -/

/-- The reciprocal `1 / d` of a finite component is `+∞` (for `d = 0`) or a
nonzero finite value. -/
lemma div_one_fin (d : ℚ) :
    F.div (.fin 1) (.fin d) = F.pInf ∨
    ∃ c : ℚ, c ≠ 0 ∧ F.div (.fin 1) (.fin d) = F.fin c := by
  by_cases h : d = 0
  · left
    simp [F.div, h]
  · right
    exact ⟨1 / d, one_div_ne_zero h, by simp [F.div, h]⟩

/-- On an axis whose slab is `[+∞, −∞]` (the default empty AABB), the two
slab parameters are `−∞` and `+∞` for every finite origin/direction
component. -/
lemma slab_axis_empty (o d : ℚ) :
    F.minF (F.mul (F.sub F.pInf (F.fin o)) (F.div (.fin 1) (.fin d)))
        (F.mul (F.sub F.nInf (F.fin o)) (F.div (.fin 1) (.fin d))) = F.nInf ∧
    F.maxF (F.mul (F.sub F.pInf (F.fin o)) (F.div (.fin 1) (.fin d)))
        (F.mul (F.sub F.nInf (F.fin o)) (F.div (.fin 1) (.fin d))) = F.pInf := by
  have h1 : F.sub F.pInf (F.fin o) = F.pInf := rfl
  have h2 : F.sub F.nInf (F.fin o) = F.nInf := rfl
  rw [h1, h2]
  rcases div_one_fin d with h | ⟨c, hc, h⟩
  · rw [h]
    exact ⟨rfl, rfl⟩
  · rw [h]
    rcases lt_trichotomy c 0 with hc' | hc' | hc'
    · simp [F.mul, F.minF, F.maxF, hc', not_lt.mpr hc'.le]
    · exact absurd hc' hc
    · simp [F.mul, F.minF, F.maxF, hc']

/-! ### Facts about the batch builder's SAH split (claim C5) -/

/-- A candidate-split step leaves the best index unchanged or sets it to
the candidate just examined. -/
lemma sahStep_snd (bs : List (Nat × Option Box)) (pSA : ℚ)
    (st : Option ℚ × Nat) (i : Nat) :
    (sahStep bs pSA st i).2 = st.2 ∨ (sahStep bs pSA st i).2 = i := by
  unfold sahStep
  dsimp only
  split
  · exact Or.inl rfl
  · split
    · split
      · exact Or.inr rfl
      · split
        · exact Or.inr rfl
        · exact Or.inl rfl
    · exact Or.inl rfl

/-- The best split index produced by the candidate loop lies in `[1, 11]`
(it starts at the default `⌊12/2⌋ = 6` and is only ever replaced by a
candidate `i ∈ [1, 11]`). -/
lemma sahLoop_range (bs : List (Nat × Option Box)) (pSA : ℚ) :
    1 ≤ sahLoop bs pSA ∧ sahLoop bs pSA ≤ 11 := by
  have key : ∀ (l : List Nat), (∀ i ∈ l, 1 ≤ i ∧ i ≤ 11) →
      ∀ st : Option ℚ × Nat, 1 ≤ st.2 → st.2 ≤ 11 →
      1 ≤ (l.foldl (sahStep bs pSA) st).2 ∧
        (l.foldl (sahStep bs pSA) st).2 ≤ 11 := by
    intro l
    induction l with
    | nil => exact fun _ st h1 h2 => ⟨h1, h2⟩
    | cons a t ih =>
      intro hmem st h1 h2
      simp only [List.foldl_cons]
      have ha := hmem a (List.mem_cons_self a t)
      rcases sahStep_snd bs pSA st a with h | h
      · refine ih (fun i hi => hmem i (List.mem_cons_of_mem a hi)) _ ?_ ?_ <;>
          rw [h]
        · exact h1
        · exact h2
      · refine ih (fun i hi => hmem i (List.mem_cons_of_mem a hi)) _ ?_ ?_ <;>
          rw [h]
        · exact ha.1
        · exact ha.2
  have hm : ∀ i ∈ List.range' 1 11, 1 ≤ i ∧ i ≤ 11 := by
    intro i hi
    rw [List.mem_range'_1] at hi
    omega
  exact key _ hm (none, 6) (by norm_num) (by norm_num)

/-- C5, counterexample: on ten objects (five unit cubes at the origin,
five at `x ∈ [9,10]`), the source's split selection
(`BVHBuilder.buildSAH` + `findBestSplitPositionSAH`) places the cut at
`x = 5/6` — a boundary of its 12 equal bins — whereas the split the claim
describes (three axes, 32 bins, cost `1.0 + (SA_L/SA_P)·n_L·1.25 +
(SA_R/SA_P)·n_R·1.25`) places it at `x = 5/8`, a 32-bin boundary. -/
theorem c5_counterexample :
    buildSAHChoice objsC5 = (0, 5 / 6) ∧ specSAH32 objsC5 = (0, 5 / 8) := by
  constructor
  · decide
  · decide

/-- C5, amended: the batch builder evaluates candidate splits only on the
single axis handed to it (chosen as the longest axis of the union), using
**12** equal centroid bins and the cost `0.125 + (SA_L·n_L + SA_R·n_R) /
SA_parent`; consequently, whenever the parent box has positive surface
area and positive extent on the split axis, the returned split position
lies on the 12-bin grid: it equals `axisMin + (i/12)·axisRange` for some
bin boundary `i ∈ [1, 11]`.  (The 32-bin three-axis cost model with
`C_t = 1.0`, `C_i = 1.25` belongs to `MeshBVH.splitSAH`, not to the batch
builder.) -/
theorem c5_amended (objs : List BObj) (axis : Nat) (parent : Box)
    (hSA : 0 < parent.surfaceArea)
    (hR : 0 < axisGet parent.bmax axis - axisGet parent.bmin axis) :
    ∃ i : Nat, 1 ≤ i ∧ i ≤ 11 ∧
      findBestSplitPositionSAH objs axis parent =
        axisGet parent.bmin axis +
          (i / 12 : ℚ) *
            (axisGet parent.bmax axis - axisGet parent.bmin axis) := by
  refine ⟨sahLoop
      (fillBuckets objs axis (axisGet parent.bmin axis)
        (axisGet parent.bmax axis - axisGet parent.bmin axis) 12)
      parent.surfaceArea,
    (sahLoop_range _ _).1, (sahLoop_range _ _).2, ?_⟩
  simp only [findBestSplitPositionSAH]
  rw [if_neg (not_le.mpr hSA), if_neg (not_le.mpr hR)]

/-- Witness for `c5_amended` at the concrete input `objsC5`/`parentC5`. -/
theorem c5_amended_witness :
    (0 < parentC5.surfaceArea ∧
      0 < axisGet parentC5.bmax 0 - axisGet parentC5.bmin 0) ∧
    ∃ i : Nat, 1 ≤ i ∧ i ≤ 11 ∧
      findBestSplitPositionSAH objsC5 0 parentC5 =
        axisGet parentC5.bmin 0 +
          (i / 12 : ℚ) * (axisGet parentC5.bmax 0 - axisGet parentC5.bmin 0) :=
  ⟨⟨by decide, by decide⟩, c5_amended objsC5 0 parentC5 (by decide) (by decide)⟩

/-! ### Not-found behavior (claim C9) -/

/-- C9: for an object id absent from `objectMap`, `update` and `remove`
both return `false` and leave the entire tree state unchanged — the
source's early `if (!node) return false` runs before any mutation. -/
theorem c9_not_found (s : TreeState) (objectId : Int) (newBounds : Box)
    (h : mapGet s.objectMap objectId = none) :
    update s objectId newBounds = (false, s) ∧
      remove s objectId = (false, s) := by
  constructor
  · unfold update
    rw [h]
  · unfold remove
    rw [h]

/-- Witness for `c9_not_found`: the empty default tree and id 5. -/
theorem c9_not_found_witness :
    mapGet (mkTree 8 32 true).objectMap 5 = none ∧
    (update (mkTree 8 32 true) 5 ⟨⟨0, 0, 0⟩, ⟨1, 1, 1⟩⟩ =
        (false, mkTree 8 32 true) ∧
      remove (mkTree 8 32 true) 5 = (false, mkTree 8 32 true)) :=
  ⟨rfl, c9_not_found (mkTree 8 32 true) 5 ⟨⟨0, 0, 0⟩, ⟨1, 1, 1⟩⟩ rfl⟩

/-! ### `nextId` bookkeeping (claim C8) -/

/-- `modifyN` does not touch `nextId`. -/
lemma nextId_modifyN (s : TreeState) (i : Nat) (f : Node → Node) :
    (modifyN s i f).nextId = s.nextId := by
  unfold modifyN
  split <;> rfl

/-- `updateBoundsStep` does not touch `nextId`. -/
lemma nextId_updateBoundsStep (s : TreeState) (i : Nat) :
    (updateBoundsStep s i).nextId = s.nextId := by
  unfold updateBoundsStep
  repeat' split
  all_goals rfl

/-- The upward refit walk does not touch `nextId`. -/
lemma nextId_updateBoundsGo : ∀ (fuel : Nat) (s : TreeState)
    (cur : Option Nat) (visited : List Nat),
    (updateBoundsGo s cur visited fuel).nextId = s.nextId := by
  intro fuel
  induction fuel with
  | zero => intro s cur visited; cases cur <;> rfl
  | succ f ih =>
    intro s cur visited
    cases cur with
    | none => rfl
    | some i =>
      simp only [updateBoundsGo]
      split
      · rfl
      · rw [ih, nextId_updateBoundsStep]

/-- `updateBounds` does not touch `nextId`. -/
lemma nextId_updateBounds (s : TreeState) (i : Nat) :
    (updateBounds s i).nextId = s.nextId :=
  nextId_updateBoundsGo 64 s (some i) []

/-- `splitLeaf` does not touch `nextId`. -/
lemma nextId_splitLeaf (s : TreeState) (leafIdx : Nat) (b : Box) (ud : UD)
    (newId : Int) : (splitLeaf s leafIdx b ud newId).nextId = s.nextId := by
  unfold splitLeaf
  split
  · rfl
  · dsimp only
    split
    · rfl
    · rw [nextId_updateBounds]
      simp only [nextId_modifyN]
      split <;> simp only [nextId_modifyN] <;> rfl

/-- The iterative-insert descent does not touch `nextId`. -/
lemma nextId_insertIterativeGo : ∀ (fuel : Nat) (s : TreeState)
    (node : Nat) (b : Box) (ud : UD) (oid : Int) (depth : Nat),
    (insertIterativeGo s node b ud oid depth fuel).nextId = s.nextId := by
  intro fuel
  induction fuel with
  | zero =>
    intro s node b ud oid depth
    simp only [insertIterativeGo]
    repeat' split
    all_goals
      first
      | rfl
      | simp [nextId_splitLeaf]
      | (rw [nextId_updateBounds]; simp only [nextId_modifyN]; rfl)
  | succ f ih =>
    intro s node b ud oid depth
    simp only [insertIterativeGo]
    repeat' split
    all_goals
      first
      | rfl
      | simp [nextId_splitLeaf]
      | (rw [ih])
      | (rw [nextId_updateBounds]; simp only [nextId_modifyN]; rfl)

/-- `insert` advances `nextId` by exactly one. -/
lemma nextId_insert (s : TreeState) (b : Box) (ud : UD) :
    (insert s b ud).2.nextId = s.nextId + 1 := by
  unfold insert
  dsimp only
  split
  · rfl
  · split
    · rfl
    · split
      · simp [nextId_splitLeaf]
      · split
        · simp [nextId_splitLeaf]
        · simp [nextId_insertIterativeGo]

/-- `update` does not touch `nextId`. -/
lemma nextId_update (s : TreeState) (oid : Int) (b : Box) :
    (update s oid b).2.nextId = s.nextId := by
  unfold update
  repeat' (first | split | dsimp only)
  all_goals
    first
    | rfl
    | simp [nextId_updateBounds, nextId_modifyN, setN]

/-- `remove` does not touch `nextId`. -/
lemma nextId_remove (s : TreeState) (oid : Int) :
    (remove s oid).2.nextId = s.nextId := by
  unfold remove
  repeat' (first | split | dsimp only)
  all_goals
    first
    | rfl
    | simp [nextId_updateBounds, nextId_modifyN, setN]

/-- C8, amended: `nextId` never decreases across `insert`, `update` and
`remove` — `insert` advances it by one and the other two leave it
untouched; the original claim fails because `clear` resets it to `0` (and
`rebuild`, which calls `clear` and adopts a freshly built tree's
allocator, can likewise lower it). -/
theorem c8_amended (s : TreeState) (op : Op) :
    s.nextId ≤ (applyOp s op).nextId := by
  cases op with
  | ins b ud =>
    rw [applyOp, nextId_insert]
    omega
  | upd i b => simp [applyOp, nextId_update]
  | rem i => simp [applyOp, nextId_remove]

/-- C8, counterexample: after one `insert` the allocator holds `1`; the
public operation `clear` — part of the very operation list the claim
quantifies over — resets it to `0`, a decrease. -/
theorem c8_counterexample :
    c8state.nextId = 1 ∧ (clear c8state).nextId = 0 := by
  constructor
  · decide
  · rfl

/-! ### Depth after `remove` (claim C4) -/

/-- C4: on the two-insert-then-remove input, the spliced sibling becomes
the root while keeping `depth = 1`, so its `depth` no longer equals its
distance `0` from the root; the source's own `validate` reports exactly
this depth inconsistency. -/
theorem c4_divergence :
    (c4state.root.bind (getN c4state)).map (·.depth) = some 1 ∧
      validate c4state = (false, [VErr.depthMismatch]) := by
  decide

/-! ### `count` vs payload leaves (claim C7) -/

/-- C7: after five inserts into a legal `maxDepth = 1` tree, `count = 5`
but only four reachable leaves carry a payload id — the fifth insert's
forced split stamped an internal node with the new id without making it a
leaf — and the source's own `validate` reports the count mismatch. -/
theorem c7_divergence :
    c7state.count = 5 ∧ countPayloadLeaves c7state = 4 ∧
      (validate c7state).1 = false := by
  decide

/-! ### `queryRange` vs the linear scan (claim C2) -/

/-- C2: on a tree holding one payload with box `[10,11]³`,
`queryRange((0,0,0), 1)` returns that payload even though its AABB does
not intersect the query box `[−1,1]³` — the leaf branch of
`queryRangeIterative` performs no overlap test, so the linear scan the
claim specifies (which returns nothing here) disagrees. -/
theorem c2_divergence :
    queryRange c2state ⟨0, 0, 0⟩ 1 = [UD.val 0] ∧
      intersectAABBF (Box.toF ⟨⟨10, 10, 10⟩, ⟨11, 11, 11⟩⟩)
        (Box.toF (fromCenterSize ⟨0, 0, 0⟩ ⟨2, 2, 2⟩)) = false := by
  decide

/-- C6, counterexample: contrary to the claim that `intersectRayDistance`
reports a miss (`null`) on every empty AABB, on the default-constructed
empty AABB (`min = (+∞,+∞,+∞)`, `max = (−∞,−∞,−∞)`) with the ray from the
origin along `+z` the kernel returns `+∞`, i.e. a hit at infinite
distance, not `null`. -/
theorem c6_counterexample :
    intersectRayDistance emptyAABB ⟨⟨0, 0, 0⟩, ⟨0, 0, 1⟩⟩ = some F.pInf := by
  decide

/-- C6, amended: `intersectRayDistance` performs no emptiness check.  On
the default-constructed empty AABB it returns `+∞` — reported as a hit at
infinite distance, never a miss — for every ray (whose origin and
direction components are finite, as `Ray` guarantees): each axis
contributes the slab interval `(−∞, +∞)`, so `tMin = −∞`, `tMax = +∞`, and
the kernel returns `tMax = +∞`. -/
theorem c6_amended (ray : Ray) :
    intersectRayDistance emptyAABB ray = some F.pInf := by
  obtain ⟨⟨ox, oy, oz⟩, ⟨dx, dy, dz⟩⟩ := ray
  have hx := slab_axis_empty ox dx
  have hy := slab_axis_empty oy dy
  have hz := slab_axis_empty oz dz
  simp only [intersectRayDistance, emptyAABB]
  rw [hx.1, hx.2, hy.1, hy.2, hz.1, hz.2]
  rfl

/-! ### Leaf filters of the non-raycast queries (claim C10) -/

/-- `queryRangeIterative` never emits an `undefined` payload. -/
lemma queryRangeGo_no_undef (s : TreeState) (range : Box) :
    ∀ (fuel : Nat) (stack : List Nat) (acc : List UD),
    UD.undef ∉ acc → UD.undef ∉ queryRangeGo s range stack acc fuel := by
  intro fuel
  induction fuel with
  | zero =>
    intro stack acc h
    cases stack <;> simpa [queryRangeGo] using h
  | succ f ih =>
    intro stack acc h
    cases stack with
    | nil => simpa [queryRangeGo] using h
    | cons i rest =>
      simp only [queryRangeGo]
      split
      · exact ih _ _ h
      · split
        · split
          · case isTrue hud =>
            refine ih _ _ ?_
            simp only [List.mem_append, List.mem_singleton]
            rintro (hacc | habs)
            · exact h hacc
            · exact hud.2 habs.symm
          · exact ih _ _ h
        · split
          · exact ih _ _ h
          · exact ih _ _ h

/-- `intersectBoundsIterative` never emits an `undefined` payload. -/
lemma intersectBoundsGo_no_undef (s : TreeState) (check : Box) :
    ∀ (fuel : Nat) (stack : List Nat) (acc : List UD),
    UD.undef ∉ acc → UD.undef ∉ intersectBoundsGo s check stack acc fuel := by
  intro fuel
  induction fuel with
  | zero =>
    intro stack acc h
    cases stack <;> simpa [intersectBoundsGo] using h
  | succ f ih =>
    intro stack acc h
    cases stack with
    | nil => simpa [intersectBoundsGo] using h
    | cons i rest =>
      simp only [intersectBoundsGo]
      split
      · exact ih _ _ h
      · split
        · split
          · case isTrue hud =>
            split
            · refine ih _ _ ?_
              simp only [List.mem_append, List.mem_singleton]
              rintro (hacc | habs)
              · exact h hacc
              · exact hud.2 habs.symm
            · exact ih _ _ h
          · exact ih _ _ h
        · split
          · exact ih _ _ h
          · exact ih _ _ h

/-- `findNearestIterative` never collects an `undefined` payload. -/
lemma findNearestGo_no_undef (s : TreeState) (pos : V3) (mdSq : Option ℚ) :
    ∀ (fuel : Nat) (stack : List Nat) (acc : List (ℚ × UD)),
    (∀ du ∈ acc, du.2 ≠ UD.undef) →
    ∀ du ∈ findNearestGo s pos mdSq stack acc fuel, du.2 ≠ UD.undef := by
  intro fuel
  induction fuel with
  | zero =>
    intro stack acc h
    cases stack <;> simpa [findNearestGo] using h
  | succ f ih =>
    intro stack acc h
    cases stack with
    | nil => simpa [findNearestGo] using h
    | cons i rest =>
      simp only [findNearestGo]
      split
      · exact ih _ _ h
      · split
        · exact ih _ _ h
        · split
          · split
            · exact ih _ _ h
            · case isFalse hud =>
              split
              · refine ih _ _ ?_
                intro du hdu
                rcases List.mem_append.1 hdu with hacc | habs
                · exact h du hacc
                · rw [List.mem_singleton.1 habs]
                  intro habs2
                  exact hud (Or.inr habs2)
              · exact ih _ _ h
          · split
            · split
              · exact ih _ _ h
              · exact ih _ _ h
            · exact ih _ _ h
            · exact ih _ _ h
            · exact ih _ _ h

unseal List.merge List.mergeSort in
/-- C10: the three non-raycast queries filter on
`userData !== undefined`, so an object inserted without user data is never
returned by `queryRange`, `intersectBounds` or `findNearest` (for any
tree); yet `raycast`'s leaf test checks only `objectId >= 0`, so on the
concrete tree holding exactly such an object the ray through its box does
report the hit, carrying the `undefined` user data. -/
theorem c10_userData_filter :
    (∀ (s : TreeState) (center : V3) (radius : ℚ),
        UD.undef ∉ queryRange s center radius) ∧
    (∀ (s : TreeState) (bounds : Box), UD.undef ∉ intersectBounds s bounds) ∧
    (∀ (s : TreeState) (pos : V3) (mdSq : Option ℚ),
        findNearest s pos mdSq ≠ UD.undef) ∧
    raycast c10state ⟨⟨0, 0, 0⟩, ⟨1, 0, 0⟩⟩ none =
      [⟨UD.undef, .fin 1, ⟨.fin 1, .fin 0, .fin 0⟩,
        ⟨.fin (-1), .fin 0, .fin 0⟩, 0⟩] := by
  refine ⟨?_, ?_, ?_, ?_⟩
  · intro s center radius
    unfold queryRange
    split
    · simp
    · exact queryRangeGo_no_undef _ _ _ _ _ (by simp)
  · intro s bounds
    unfold intersectBounds
    split
    · simp
    · exact intersectBoundsGo_no_undef _ _ _ _ _ (by simp)
  · intro s pos mdSq
    unfold findNearest
    split
    · simp
    · case _ r heq =>
      dsimp only
      split
      · simp
      · case _ c t hsort =>
        have hc : c ∈ findNearestGo s pos mdSq [r] []
            (2 * s.count + 1000).toNat := by
          have hmem : c ∈ (findNearestGo s pos mdSq [r] []
              (2 * s.count + 1000).toNat).mergeSort
                (fun a b => decide (a.1 ≤ b.1)) := by
            rw [hsort]
            exact List.mem_cons_self c t
          exact (List.mergeSort_perm _ _).subset hmem
        exact findNearestGo_no_undef s pos mdSq _ _ _ (by simp) c hc
  · decide

/-! ### Raycast soundness, ordering, and max-distance pruning (claim C1) -/

/-- `sortResults` always yields a list sorted ascending by the distance
key. -/
lemma sortResults_pairwise (l : List CollisionResult) :
    (sortResults l).Pairwise
      (fun a b => F.toKey a.distance ≤ F.toKey b.distance) := by
  have htrans : ∀ a b c : CollisionResult,
      crLe a b → crLe b c → crLe a c := by
    intro a b c h1 h2
    simp only [crLe, decide_eq_true_eq] at h1 h2 ⊢
    exact le_trans h1 h2
  have htotal : ∀ a b : CollisionResult, crLe a b || crLe b a := by
    intro a b
    simp only [crLe, Bool.or_eq_true, decide_eq_true_eq]
    exact le_total _ _
  have h := @List.sorted_mergeSort CollisionResult crLe htrans htotal l
  exact h.imp (fun hab => by simpa [crLe] using hab)

/-- A bound below `max(a, 0)` is in particular a bound below `0`'s side:
if `max(tMin, 0) ≤ c` in JS comparison then `0 ≤ c`. -/
lemma zero_le_of_max_le (a c : F)
    (h : F.leF (F.maxF a (.fin 0)) c = true) :
    F.leF (.fin 0) c = true := by
  cases a <;> cases c <;>
    simp only [F.maxF, F.leF, decide_eq_true_eq] at h ⊢ <;>
    first
    | trivial
    | exact le_trans (le_max_right _ _) h

/-- Every distance the slab kernel reports is nonnegative (in the JS
comparison sense): it returns `tMin` only under `tMin ≥ 0`, else `tMax`
under `tMax ≥ max(tMin, 0) ≥ 0`. -/
lemma intersectRayDistance_nonneg (box : BoxF) (ray : Ray) (d : F)
    (h : intersectRayDistance box ray = some d) :
    F.leF (.fin 0) d = true := by
  unfold intersectRayDistance at h
  dsimp only at h
  split at h
  case isTrue h1 =>
    split at h
    case isTrue h2 => exact (Option.some.inj h) ▸ h2
    case isFalse h2 =>
      obtain rfl := Option.some.inj h
      exact zero_le_of_max_le _ _ h1
  case isFalse h1 => exact absurd h (by simp)

/-- Any hit the raycast stack loop adds beyond its accumulator is
genuine: it comes from a payload leaf whose AABB the ray hits at the
reported distance within the cap. -/
lemma raycastGo_mem (s : TreeState) (ray : Ray) (md : Option F) :
    ∀ (fuel : Nat) (stack : List Nat) (acc : List CollisionResult)
      (h : CollisionResult),
      h ∈ raycastGo s ray md stack acc fuel →
      h ∈ acc ∨ raycastSound s ray md h := by
  intro fuel
  induction fuel with
  | zero =>
    intro stack acc h hmem
    cases stack with
    | nil => exact Or.inl (by simpa [raycastGo] using hmem)
    | cons i rest => exact Or.inl (by simpa [raycastGo] using hmem)
  | succ f ih =>
    intro stack acc h hmem
    cases stack with
    | nil => exact Or.inl (by simpa [raycastGo] using hmem)
    | cons i rest =>
      simp only [raycastGo] at hmem
      split at hmem
      · exact ih _ _ _ hmem
      · rename_i n heqN
        split at hmem
        case isTrue hleaf =>
          split at hmem
          case isTrue hobj => exact ih _ _ _ hmem
          case isFalse hobj =>
            split at hmem
            · rename_i d heqD
              split at hmem
              case isTrue hguard =>
                rcases ih _ _ _ hmem with hin | hP
                · rcases List.mem_append.1 hin with hin | hin
                  · exact Or.inl hin
                  · right
                    rw [List.mem_singleton.1 hin]
                    refine ⟨n, heqN, hleaf, by omega, heqD, rfl, ?_⟩
                    intro m hm
                    rw [hm] at hguard
                    simpa using hguard
                · exact Or.inr hP
              case isFalse hguard => exact ih _ _ _ hmem
            · exact ih _ _ _ hmem
        case isFalse hleaf =>
          split at hmem
          · exact ih _ _ _ hmem
          · split at hmem
            case isTrue hprune => exact ih _ _ _ hmem
            case isFalse hprune =>
              split at hmem
              · split at hmem
                · split at hmem
                  · exact ih _ _ _ hmem
                  · exact ih _ _ _ hmem
                · exact ih _ _ _ hmem
                · exact ih _ _ _ hmem
                · exact ih _ _ _ hmem
              · exact ih _ _ _ hmem
              · exact ih _ _ _ hmem
              · exact ih _ _ _ hmem

unseal List.merge List.mergeSort in
/-- C1, counterexample: a tree satisfying the structural invariants with
a payload leaf (node 1) whose AABB the ray hits at distance `1/2 ≤ 5`,
yet `raycast` with `maxDistance = 5` returns no hit at all: the ray
origin lies inside the root's bounds, so the root's slab distance is its
exit distance `99.5 > 5` and the whole tree is pruned. -/
theorem c1_counterexample :
    wfState c1state = true ∧
    getN c1state 1 =
      some ⟨⟨⟨1, -1, -1⟩, ⟨2, 1, 1⟩⟩, true, 1, none, none, some 0,
        UD.val 0, 0⟩ ∧
    intersectRayDistance (Box.toF ⟨⟨1, -1, -1⟩, ⟨2, 1, 1⟩⟩) c1ray =
      some (.fin (1 / 2)) ∧
    F.leF (.fin (1 / 2)) (.fin 5) = true ∧
    raycast c1state c1ray (some (.fin 5)) = [] := by
  refine ⟨by decide, by decide, by decide, by decide, by decide⟩

/-- C1, amended: `raycast` returns a list sorted ascending by distance,
and every returned hit is genuine — it names a payload leaf whose AABB
the ray hits at exactly the reported (nonnegative) distance within
`maxDistance` and carries that leaf's user data.  The "exactly one hit
per qualifying leaf" half of the original claim fails: when the ray
origin lies inside a node's bounds the slab kernel reports the exit
distance, and the traversal prunes the node (and every qualifying leaf
below it) whenever that exit distance exceeds `maxDistance`. -/
theorem c1_amended (s : TreeState) (ray : Ray) (md : Option F) :
    (raycast s ray md).Pairwise
      (fun a b => F.toKey a.distance ≤ F.toKey b.distance) ∧
    ∀ h ∈ raycast s ray md,
      raycastSound s ray md h ∧ F.leF (.fin 0) h.distance = true := by
  constructor
  · unfold raycast
    split
    · exact List.Pairwise.nil
    · exact sortResults_pairwise _
  · intro h hmem
    unfold raycast at hmem
    split at hmem
    · simp at hmem
    · unfold sortResults at hmem
      have hmem' := (List.mergeSort_perm _ crLe).subset hmem
      rcases raycastGo_mem s ray md _ _ _ h hmem' with hin | hP
      · simp at hin
      · refine ⟨hP, ?_⟩
        obtain ⟨n, _, _, _, heqD, _, _⟩ := hP
        exact intersectRayDistance_nonneg _ _ _ heqD

/-! ### Mesh raycastFirst vs brute force (claim C3) -/

/-- Being strictly below a JS bound transfers down along `<` on finite
values. -/
lemma ltF_fin_trans (x y : ℚ) (m : F) (hxy : x < y)
    (h : F.ltF (.fin y) m = true) : F.ltF (.fin x) m = true := by
  cases m <;> simp_all [F.ltF]
  linarith

/-- The best-hit fold of `raycastFirst` preserves its invariant: the
state is still the untouched start, or it holds a hit from the list that
is strictly below the original `maxDistance`. -/
lemma selStep_inv (L : List MeshHit) (md0 : F) :
    ∀ (l : List MeshHit) (st : Option MeshHit × F),
    (∀ x ∈ l, x ∈ L) →
    ((st.1 = none ∧ st.2 = md0) ∨
      ∃ h0, st.1 = some h0 ∧ st.2 = .fin h0.distance ∧ h0 ∈ L ∧
        F.ltF (.fin h0.distance) md0 = true) →
    ((l.foldl selStep st).1 = none ∧ (l.foldl selStep st).2 = md0) ∨
      ∃ h0, (l.foldl selStep st).1 = some h0 ∧
        (l.foldl selStep st).2 = .fin h0.distance ∧ h0 ∈ L ∧
        F.ltF (.fin h0.distance) md0 = true := by
  intro l
  induction l with
  | nil => exact fun st _ hinv => hinv
  | cons a tail ih =>
    intro st hsub hinv
    simp only [List.foldl_cons]
    refine ih _ (fun x hx => hsub x (List.mem_cons_of_mem a hx)) ?_
    unfold selStep
    split
    case isTrue hc =>
      right
      refine ⟨a, rfl, rfl, hsub a (List.mem_cons_self a tail), ?_⟩
      rcases hinv with ⟨_, h2⟩ | ⟨h0, _, h2, _, hlt0⟩
      · rwa [h2] at hc
      · rw [h2] at hc
        simp only [F.ltF, decide_eq_true_eq] at hc
        exact ltF_fin_trans _ _ _ hc hlt0
    case isFalse hc => exact hinv

/-- A hit selected by `raycastFirst`'s callback came from the traversal's
hit list, strictly below `maxDistance`. -/
lemma selectClosest_some (L : List MeshHit) (md : F) (h : MeshHit)
    (hsel : (selectClosest L md).1 = some h) :
    h ∈ L ∧ F.ltF (.fin h.distance) md = true := by
  rcases selStep_inv L md L (none, md) (fun x hx => hx)
      (Or.inl ⟨rfl, rfl⟩) with ⟨h1, _⟩ | ⟨h0, h1, _, hm, hlt⟩
  · rw [selectClosest] at hsel
    rw [hsel] at h1
    exact absurd h1 (by simp)
  · rw [selectClosest] at hsel
    rw [hsel] at h1
    obtain rfl := Option.some.inj h1
    exact ⟨hm, hlt⟩

/-- Every hit the leaf loop appends beyond its accumulator comes from a
triangle of the leaf, at its reported distance, within `maxDistance`. -/
lemma emitFold_mem (ray : Ray) (md : F) (cull : Bool) :
    ∀ (tris : List Tri) (acc : List MeshHit) (h : MeshHit),
    h ∈ tris.foldl (emitTriStep ray md cull) acc →
    h ∈ acc ∨ ∃ t ∈ tris, triIntersectRay t ray cull = some h.distance ∧
      F.leF (.fin h.distance) md = true := by
  intro tris
  induction tris with
  | nil => exact fun acc h hmem => Or.inl hmem
  | cons a tail ih =>
    intro acc h hmem
    simp only [List.foldl_cons] at hmem
    rcases ih _ _ hmem with hin | ⟨t, htm, heq, hle⟩
    · unfold emitTriStep at hin
      split at hin
      · rename_i d heqd
        split at hin
        case isTrue hguard =>
          rcases List.mem_append.1 hin with hin | hin
          · exact Or.inl hin
          · right
            rw [List.mem_singleton.1 hin]
            exact ⟨a, List.mem_cons_self a tail, heqd, hguard⟩
        case isFalse hguard => exact Or.inl hin
      · exact Or.inl hin
    · exact Or.inr ⟨t, List.mem_cons_of_mem a htm, heq, hle⟩

/-- Every hit `raycastNodeFirst` fires comes from a triangle stored in
the subtree's leaves, at its reported distance, within `maxDistance`. -/
lemma raycastNodeFirst_mem (ray : Ray) (md : F) (cull : Bool) :
    ∀ (n : MNode) (h : MeshHit),
    h ∈ raycastNodeFirst n ray md cull →
    ∃ t ∈ leafTris n, triIntersectRay t ray cull = some h.distance ∧
      F.leF (.fin h.distance) md = true := by
  intro n
  induction n with
  | leaf bounds tris depth =>
    intro h hmem
    simp only [raycastNodeFirst] at hmem
    split at hmem
    · simp at hmem
    · split at hmem
      · simp at hmem
      · rcases emitFold_mem ray md cull tris [] h hmem with hin | hP
        · simp at hin
        · exact hP
  | node bounds l r depth ihl ihr =>
    intro h hmem
    simp only [raycastNodeFirst] at hmem
    split at hmem
    · simp at hmem
    · split at hmem
      · simp at hmem
      · have liftL : ∀ (hp : ∃ t ∈ leafTris l,
            triIntersectRay t ray cull = some h.distance ∧
              F.leF (.fin h.distance) md = true),
            ∃ t ∈ leafTris (MNode.node bounds l r depth),
              triIntersectRay t ray cull = some h.distance ∧
                F.leF (.fin h.distance) md = true := by
          rintro ⟨t, htm, hrest⟩
          exact ⟨t, by simp [leafTris, List.mem_append, htm], hrest⟩
        have liftR : ∀ (hp : ∃ t ∈ leafTris r,
            triIntersectRay t ray cull = some h.distance ∧
              F.leF (.fin h.distance) md = true),
            ∃ t ∈ leafTris (MNode.node bounds l r depth),
              triIntersectRay t ray cull = some h.distance ∧
                F.leF (.fin h.distance) md = true := by
          rintro ⟨t, htm, hrest⟩
          exact ⟨t, by simp [leafTris, List.mem_append, htm], hrest⟩
        split at hmem
        · split at hmem
          · rcases List.mem_append.1 hmem with hin | hin
            · exact liftL (ihl h hin)
            · exact liftR (ihr h hin)
          · rcases List.mem_append.1 hmem with hin | hin
            · exact liftR (ihr h hin)
            · exact liftL (ihl h hin)
        · exact liftL (ihl h hmem)
        · exact liftR (ihr h hmem)
        · simp at hmem

/-- Once the brute-force scan holds a best hit, it ends with a best hit
no farther than it. -/
lemma bf_keep (ray : Ray) (cull : Bool) :
    ∀ (l : List Tri) (st : Option MeshHit × F) (h0 : MeshHit),
    st.1 = some h0 → st.2 = .fin h0.distance →
    ∃ h', (l.foldl (bfStep ray cull) st).1 = some h' ∧
      h'.distance ≤ h0.distance := by
  intro l
  induction l with
  | nil =>
    intro st h0 h1 _
    exact ⟨h0, h1, le_refl _⟩
  | cons a tail ih =>
    intro st h0 h1 h2
    simp only [List.foldl_cons]
    unfold bfStep
    split
    · rename_i d heqd
      split
      case isTrue hc =>
        obtain ⟨h', hh1, hh2⟩ := ih
          (some ⟨a, d, getPointQ ray d, a.index, triGetBarycentric a ray cull⟩,
            F.fin d)
          ⟨a, d, getPointQ ray d, a.index, triGetBarycentric a ray cull⟩ rfl rfl
        refine ⟨h', hh1, le_trans hh2 ?_⟩
        rw [h2] at hc
        simp only [F.ltF, decide_eq_true_eq] at hc
        exact le_of_lt hc
      case isFalse hc => exact ih _ _ h1 h2
    · exact ih _ _ h1 h2

/-- If some triangle of the list hits strictly below the current bound,
the brute-force scan ends with a hit no farther than that triangle's. -/
lemma bf_find (ray : Ray) (cull : Bool) :
    ∀ (l : List Tri) (st : Option MeshHit × F),
    (∀ h0, st.1 = some h0 → st.2 = .fin h0.distance) →
    ∀ t ∈ l, ∀ d : ℚ, triIntersectRay t ray cull = some d →
    F.ltF (.fin d) st.2 = true →
    ∃ h', (l.foldl (bfStep ray cull) st).1 = some h' ∧ h'.distance ≤ d := by
  intro l
  induction l with
  | nil =>
    intro st _ t htm
    exact absurd htm (List.not_mem_nil t)
  | cons a tail ih =>
    intro st hinv t htm d heqd hlt
    simp only [List.foldl_cons]
    rcases List.mem_cons.1 htm with rfl | htail
    · simp only [bfStep, heqd]
      rw [if_pos hlt]
      obtain ⟨h', hh1, hh2⟩ := bf_keep ray cull tail
        (some ⟨t, d, getPointQ ray d, t.index, triGetBarycentric t ray cull⟩,
          F.fin d)
        ⟨t, d, getPointQ ray d, t.index, triGetBarycentric t ray cull⟩ rfl rfl
      exact ⟨h', hh1, hh2⟩
    · unfold bfStep
      split
      · rename_i da heqa
        split
        case isTrue hc =>
          rcases le_or_lt da d with hda | hda
          · obtain ⟨h', hh1, hh2⟩ := bf_keep ray cull tail
              (some ⟨a, da, getPointQ ray da, a.index,
                triGetBarycentric a ray cull⟩, F.fin da)
              ⟨a, da, getPointQ ray da, a.index,
                triGetBarycentric a ray cull⟩ rfl rfl
            exact ⟨h', hh1, le_trans hh2 hda⟩
          · refine ih _ ?_ t htail d heqd ?_
            · intro h0 hh0
              obtain rfl := Option.some.inj hh0
              rfl
            · simp only [F.ltF, decide_eq_true_eq]
              exact hda
        case isFalse hc => exact ih _ hinv t htail d heqd hlt
      · exact ih _ hinv t htail d heqd hlt

unseal BVH.buildNode in
/-- C3, counterexample: on a three-triangle mesh (one triangle in the
plane `z = 1`, two far planes `z = ±100` that stretch the single leaf's
bounds along the ray) with the ray from `(0,0,2)` toward `−z` and
`maxDistance = 5`, `raycastFirst` returns no hit — the ray origin is
inside the leaf's bounds, so the slab kernel reports the exit distance
`102 > 5` and the leaf is pruned — while `raycastBruteForce` reports the
`z = 1` triangle at `t = 1`. -/
theorem c3_counterexample :
    raycastFirst meshC3 rayC3 (.fin 5) false = none ∧
      (raycastBruteForce meshC3 rayC3 (.fin 5) false).map (·.distance) =
        some 1 := by
  constructor
  · decide
  · decide

/-- C3, amended: `raycastFirst` is sound but not complete relative to
`raycastBruteForce`: for any mesh whose leaf-stored triangles all occur
in its triangle list (true of every built `MeshBVH`), whenever
`raycastFirst` returns a hit, `raycastBruteForce` returns a hit at a
distance no larger than the returned one.  The claimed biconditional
(and equality of distances) fails, because the traversal prunes any node
whose slab distance — the exit distance when the ray origin is inside
the node's bounds — exceeds `max_distance`, which the linear scan never
does. -/
theorem c3_amended (m : Mesh) (ray : Ray) (md : F) (cull : Bool)
    (hsub : ∀ t ∈ meshLeafTris m, t ∈ m.triangles) (h : MeshHit)
    (hfirst : raycastFirst m ray md cull = some h) :
    ∃ h', raycastBruteForce m ray md cull = some h' ∧
      h'.distance ≤ h.distance := by
  unfold raycastFirst at hfirst
  split at hfirst
  · exact absurd hfirst (by simp)
  · rename_i r heqR
    obtain ⟨hmem, hlt⟩ := selectClosest_some _ md h hfirst
    obtain ⟨t, htmem, heqd, _⟩ := raycastNodeFirst_mem ray md cull r h hmem
    have htM : t ∈ m.triangles := by
      refine hsub t ?_
      unfold meshLeafTris
      rw [heqR]
      exact htmem
    unfold raycastBruteForce
    exact bf_find ray cull m.triangles (none, md)
      (fun h0 hh0 => absurd hh0 (by simp)) t htM h.distance heqd hlt

unseal BVH.buildNode in
/-- Witness for `c3_amended`: the one-triangle mesh `meshW` with the ray
`rayW` hitting it at distance 5. -/
theorem c3_amended_witness :
    (∀ t ∈ meshLeafTris meshW, t ∈ meshW.triangles) ∧
    ∃ h', raycastBruteForce meshW rayW .pInf false = some h' ∧
      h'.distance ≤
        (⟨triW, 5, ⟨2, 2, 5⟩, 0,
          some (1 / 2, 1 / 2, 0)⟩ : MeshHit).distance :=
  ⟨by decide,
   c3_amended meshW rayW .pInf false (by decide)
     ⟨triW, 5, ⟨2, 2, 5⟩, 0, some (1 / 2, 1 / 2, 0)⟩ (by decide)⟩

end BVH
